import Mathlib

/-!
Verification of the open-addressing hash table of `src/hashmap.h` and
`src/hashset.h` (namespace `gtr::containers`).  The C++ template code is
shallowly embedded: a bucket is a record of its state byte, cached 64-bit
hash, key, and value; the table is the backing list of buckets together with
the `size` field; `capacity` is the length of the backing list.  Machine
integers are modelled as `Nat`; the only places where bit-width matters are
noted in comments.  The pluggable hash functor is a parameter `hf : K → Nat`
and the comparison functor is decidable equality on `K` (the default
`hashmap_internal_comp`).  The allocator is out of scope per the spec;
allocation is modelled as always succeeding.

The recursive growth path (`add_with_hash` → `grow` → `reserve` →
`add_with_hash`) is embedded with an explicit fuel parameter; fuel `f + 1`
suffices for one level of growing, and lemmas state the fuel they need.
-/

set_option maxHeartbeats 1600000
set_option linter.unusedSectionVars false

namespace HashVerify

/-- Tri-state of a bucket: `_flags` is 0 (Empty), `HASHMAP_BUCKET_OCCUPIED`
(1) or `HASHMAP_BUCKET_TOMBSTONE` (2); the code only ever stores these three
values, so the flag byte is modelled as this enumeration. -/
inductive BucketState
  | empty
  | occupied
  | tombstone
deriving DecidableEq, Repr, Inhabited

/-- One slot of `hashmap_bucket<Key, T>` (src/hashmap.h lines 26-38): key,
value, flag byte, cached hash `_hash`.  Key and value storage exists even in
non-occupied slots (raw memory in C++); `default` stands for its contents. -/
structure Bucket (K V : Type) where
  state : BucketState
  hash : Nat
  key : K
  value : V
deriving DecidableEq, Repr, Inhabited

variable {K V : Type} [DecidableEq K] [Inhabited K] [Inhabited V]

/-- A zero-initialized bucket, as produced by `memset(data, 0, ...)`:
flags 0 (Empty), `_hash` 0, zeroed key/value bytes. -/
def zeroBucket (K V : Type) [Inhabited K] [Inhabited V] : Bucket K V :=
  ⟨.empty, 0, default, default⟩

/-- The table: backing array `data` plus the live-entry counter `size`
(src/hashmap.h lines 99-101).  `capacity` always equals the length of the
backing array in every state the C++ code constructs, so it is modelled as
`data.length`. -/
structure Hashmap (K V : Type) where
  data : List (Bucket K V)
  size : Nat
deriving Repr

/-- The `capacity` field of the C++ struct. -/
def Hashmap.capacity (m : Hashmap K V) : Nat := m.data.length

/-- The default constructor (line 135): null buffer, size 0, capacity 0. -/
def emptyMap (K V : Type) : Hashmap K V := ⟨[], 0⟩

/-- The reserved-capacity constructor `hashmap(std::size_t _Reserved)`
(lines 144-147): allocates `_Reserved` buckets and zeroes them. -/
def mkReserved (K V : Type) [Inhabited K] [Inhabited V] (r : Nat) : Hashmap K V :=
  ⟨List.replicate r (zeroBucket K V), 0⟩

/-- The sentinel `static_cast<std::size_t>(-1)` used to mean
"hash not yet computed". -/
def sentinel : Nat := 2 ^ 64 - 1

/-- `probe(hash) = 1LL + hash % (capacity - 1LL)` (line 375).  In C++ a call
with `capacity == 1` divides by zero (undefined behavior); Lean's total `%`
returns `h` there, and the safety claim about reachability of that case is
handled separately.  (`capacity == 0` would wrap to `hash % (2^64 - 1)` in
C++, but no code path reaches `probe` with capacity 0.) -/
def probeStep (cap h : Nat) : Nat := 1 + h % (cap - 1)

/-- The sequence of bucket indices the probe loops visit: start at
`hash % capacity`; each iteration does `index = (index + key_probe) % capacity`
and then `key_probe++`, with `key_probe` initialized to `probe(hash)`
(lines 299-303 and 422-426).  So the step used at probe number `t` is
`probeStep + t`. -/
def wstop (cap h : Nat) : Nat → Nat
  | 0 => h % cap
  | t + 1 => (wstop cap h t + (probeStep cap h + t)) % cap

/-- The loop of `hashmap::find` (lines 413-427): at each visited bucket an
Occupied slot is compared by cached hash then key; an Empty slot ends the
search; a Tombstone is skipped; at most `capacity` probes run (the fuel). -/
def findLoop (data : List (Bucket K V)) (cap : Nat) (k : K) (h : Nat) :
    Nat → Nat → Nat → Option Nat
  | _idx, _kp, 0 => none
  | idx, kp, fuel + 1 =>
    let b := data.getD idx default
    if b.state = .occupied then
      if b.hash = h ∧ b.key = k then some idx
      else findLoop data cap k h ((idx + kp) % cap) (kp + 1) fuel
    else if b.state = .tombstone then
      findLoop data cap k h ((idx + kp) % cap) (kp + 1) fuel
    else none

/-- The body of `hashmap::find` after its `size == 0` guard: start the find
loop at `key_hash % capacity` with step `probe(key_hash)` and fuel
`capacity`. -/
def findRaw (hf : K → Nat) (m : Hashmap K V) (k : K) : Option Nat :=
  findLoop m.data m.capacity k (hf k) (hf k % m.capacity)
    (probeStep m.capacity (hf k)) m.capacity

/-- `hashmap::find(key)` (lines 402-429), returning the bucket index instead
of an iterator (`none` is the end iterator).  Guards on `size == 0` first. -/
def findIdx (hf : K → Nat) (m : Hashmap K V) (k : K) : Option Nat :=
  if m.size = 0 then none else findRaw hf m k

/-- `hashmap::contains(key)` (line 543): `find(key) != end()`. -/
def containsB (hf : K → Nat) (m : Hashmap K V) (k : K) : Bool :=
  (findIdx hf m k).isSome

/-- `hashmap::try_get_value(key, Value&)` (lines 552-558): the returned
Bool-and-out-parameter pair is modelled as an `Option V`. -/
def tryGetValue (hf : K → Nat) (m : Hashmap K V) (k : K) : Option V :=
  (findIdx hf m k).map fun i => (m.data.getD i default).value

/-- Overwrite only the cached `_hash` field of slot `i` (the write
`bucket->_hash = hash_created` that `get_bucket` performs on the non-occupied
slot it returns, lines 295 and 308). -/
def setHashAt (data : List (Bucket K V)) (i h : Nat) : List (Bucket K V) :=
  data.set i { data.getD i default with hash := h }

/-- The loop of `hashmap::get_bucket(key, hash)` (lines 278-313): like the
find loop but it records the first Tombstone (`ft`), and on reaching an Empty
slot returns the recorded tombstone slot if any, else the empty slot, writing
`_hash` into the returned non-occupied slot.  If all `capacity` probes pass
(fuel 0), a recorded tombstone is reused, else the table is full (`none`,
the null return). -/
def getBucketLoop (data : List (Bucket K V)) (cap : Nat) (k : K) (h : Nat) :
    Nat → Nat → Option Nat → Nat → Option Nat × List (Bucket K V)
  | _idx, _kp, ft, 0 =>
    match ft with
    | some t => (some t, setHashAt data t h)
    | none => (none, data)
  | idx, kp, ft, fuel + 1 =>
    let b := data.getD idx default
    if b.state = .occupied then
      if b.hash = h ∧ b.key = k then (some idx, data)
      else getBucketLoop data cap k h ((idx + kp) % cap) (kp + 1) ft fuel
    else if b.state = .tombstone then
      getBucketLoop data cap k h ((idx + kp) % cap) (kp + 1)
        (match ft with | some u => some u | none => some idx) fuel
    else
      (some (ft.getD idx), setHashAt data (ft.getD idx) h)

/-- The `hash_created == -1` convention of `get_bucket` (lines 269-270):
recompute the hash when the sentinel was passed. -/
def resolveHash (hf : K → Nat) (k : K) (h : Nat) : Nat :=
  if h = sentinel then hf k else h

/-- `hashmap::get_bucket(key, hash_created)` (lines 268-314).  Returns the
chosen bucket index (`none` = null), the resolved hash (the by-reference
out-parameter `hash_created`), and the possibly `_hash`-mutated backing
array. -/
def getBucket (hf : K → Nat) (data : List (Bucket K V)) (cap : Nat) (k : K)
    (h : Nat) : Option Nat × Nat × List (Bucket K V) :=
  let kh := resolveHash hf k h
  let r := getBucketLoop data cap k kh (kh % cap) (probeStep cap kh) none cap
  (r.1, kh, r.2)

/-- The growth test `(size + 1) >= (capacity * load_factor)` with
`load_factor = 0.75f` (lines 440, 475).  The float comparison is exact for
the value ranges a table can reach in practice, and equals
`3 * capacity ≤ 4 * (size + 1)` over the integers. -/
def growCheckB (m : Hashmap K V) : Bool := 3 * m.capacity ≤ 4 * (m.size + 1)

/-- The re-insertion loop of `reserve` (lines 335-339), parameterized by the
add operation so that the mutual recursion `add_with_hash` → `grow` →
`reserve` → `add_with_hash` can be expressed by structural recursion on the
fuel: walk the old array and `add_with_hash(key, value, _hash)` every
Occupied bucket.  The returned iterator is discarded, exactly as in the
source. -/
def reinsertAllWith
    (addF : Hashmap K V → K → V → Nat → Hashmap K V × Option Nat)
    (acc : Hashmap K V) : List (Bucket K V) → Hashmap K V
  | [] => acc
  | b :: rest =>
    reinsertAllWith addF
      (if b.state = .occupied then (addF acc b.key b.value b.hash).1 else acc)
      rest

/-- `hashmap::reserve(n)` (lines 332-342), parameterized like
`reinsertAllWith`: if `n > capacity`, build a fresh zeroed table of capacity
`n`, re-add every Occupied bucket with its cached hash, and replace `*this`
by the new table. -/
def reserveFWith
    (addF : Hashmap K V → K → V → Nat → Hashmap K V × Option Nat)
    (m : Hashmap K V) (r : Nat) : Hashmap K V :=
  if m.capacity < r then reinsertAllWith addF (mkReserved K V r) m.data else m

/-- `hashmap::grow()` (lines 347-350), parameterized like `reinsertAllWith`:
reserve `capacity * (1 + growth_factor)` (exactly `2 * capacity` for
`growth_factor = 1.0f`), or 64 from capacity 0. -/
def growFWith
    (addF : Hashmap K V → K → V → Nat → Hashmap K V × Option Nat)
    (m : Hashmap K V) : Hashmap K V :=
  reserveFWith addF m (if m.capacity = 0 then 64 else 2 * m.capacity)

/-- `hashmap::add_with_hash(key, value, hash)` (lines 439-464): grow if the
load-factor test fires, resolve the hash, locate a bucket; overwrite the
value if the key already exists, otherwise construct key/value in place, set
`_hash` and the Occupied flag and bump `size`.  Returns the new table and the
returned iterator (as a bucket index, `none` = end, the table-full case).
Fuel bounds the grow recursion structurally; fuel 0 is unreachable with the
fuel margins the lemmas state. -/
def addWH (hf : K → Nat) : Nat → Hashmap K V → K → V → Nat →
    Hashmap K V × Option Nat
  | 0, m, _, _, _ => (m, none)
  | fuel + 1, m, k, v, h =>
    let m1 := if growCheckB m then
        growFWith (fun a k2 v2 h2 => addWH hf fuel a k2 v2 h2) m
      else m
    let kh := resolveHash hf k h
    match getBucket hf m1.data m1.capacity k kh with
    | (none, _, d2) => ({ m1 with data := d2 }, none)
    | (some i, _, d2) =>
      if (d2.getD i default).state = .occupied then
        ({ m1 with data := d2.set i { d2.getD i default with value := v } },
          some i)
      else
        ({ data := d2.set i ⟨.occupied, kh, k, v⟩, size := m1.size + 1 },
          some i)

/-- `hashmap::grow()` at a given fuel level. -/
def growF (hf : K → Nat) (fuel : Nat) (m : Hashmap K V) : Hashmap K V :=
  growFWith (addWH hf fuel) m

/-- `hashmap::reserve(n)` at a given fuel level. -/
def reserveF (hf : K → Nat) (fuel : Nat) (m : Hashmap K V) (r : Nat) :
    Hashmap K V :=
  reserveFWith (addWH hf fuel) m r

/-- The re-insertion loop of `reserve` at a given fuel level. -/
def reinsertAll (hf : K → Nat) (fuel : Nat) (acc : Hashmap K V)
    (bs : List (Bucket K V)) : Hashmap K V :=
  reinsertAllWith (addWH hf fuel) acc bs

/-- `hashmap::add(key, value)` (line 508): `add_with_hash` with the sentinel. -/
def add (hf : K → Nat) (fuel : Nat) (m : Hashmap K V) (k : K) (v : V) :
    Hashmap K V × Option Nat :=
  addWH hf fuel m k v sentinel

/-- `hashmap::remove(key)` (lines 525-535): find; if found, destroy key and
value, set the flag byte to Tombstone (the cached `_hash` is left behind),
decrement `size`.  Returns the new table and the removed index (`none` =
not found). -/
def removeSt (hf : K → Nat) (m : Hashmap K V) (k : K) :
    Hashmap K V × Option Nat :=
  match findIdx hf m k with
  | some i =>
    ({ data := m.data.set i { m.data.getD i default with state := .tombstone },
       size := m.size - 1 }, some i)
  | none => (m, none)

/-- `hashmap::get(key)` (lines 383-389): early end on capacity 0, else
`get_bucket` with the sentinel hash; an occupied result is returned, a
non-occupied or null result yields end.  The table is returned as well
because `get_bucket` can write `_hash` through its const-pointer. -/
def getSt (hf : K → Nat) (m : Hashmap K V) (k : K) :
    Option Nat × Hashmap K V :=
  if m.capacity = 0 then (none, m)
  else
    match getBucket hf m.data m.capacity k sentinel with
    | (none, _, d2) => (none, { m with data := d2 })
    | (some i, _, d2) =>
      if (d2.getD i default).state = .occupied then (some i, { m with data := d2 })
      else (none, { m with data := d2 })

/-- `hashmap::operator[](key)` (lines 591-606): grow only when `capacity`
is 0 (no load-factor test!), then `get_bucket`; if the key exists return its
value, else default-construct a value in the returned slot and bump `size`.
A null `get_bucket` result is dereferenced in C++ (undefined behavior),
modelled as `none`. -/
def opIndex (hf : K → Nat) (fuel : Nat) (m : Hashmap K V) (k : K) :
    Option (Hashmap K V × V) :=
  let m1 := if m.capacity = 0 then growF hf fuel m else m
  match getBucket hf m1.data m1.capacity k sentinel with
  | (none, _, _) => none
  | (some i, kh, d2) =>
    let b := d2.getD i default
    if b.state = .occupied then some ({ m1 with data := d2 }, b.value)
    else
      some ({ data := d2.set i ⟨.occupied, kh, k, (default : V)⟩,
              size := m1.size + 1 }, (default : V))

/-- Number of Occupied buckets of a backing array.  This is what the `size`
field counts (spec section 3). -/
def occCount (l : List (Bucket K V)) : Nat :=
  l.countP fun b => decide (b.state = .occupied)

/-- The `size` field agrees with the number of Occupied buckets; this holds
in every state the C++ code constructs. -/
@[reducible]
def sizeOk (m : Hashmap K V) : Prop := m.size = occCount m.data

/-- Well-formedness of a table state, as maintained by the code and stated
in spec section 3: `size` counts the Occupied buckets, every Occupied
bucket's cached hash is the hash of its key, and no two Occupied buckets
hold the same key. -/
@[reducible]
def wf (hf : K → Nat) (m : Hashmap K V) : Prop :=
  sizeOk m ∧
  (∀ b ∈ m.data, b.state = .occupied → b.hash = hf b.key) ∧
  m.data.Pairwise fun a b => a.state = .occupied → b.state = .occupied →
    a.key ≠ b.key

/-- Every Occupied bucket is found at its own index by `find` (the
probe-reachability invariant of spec section 3). -/
@[reducible]
def selfFind (hf : K → Nat) (m : Hashmap K V) : Prop :=
  ∀ i, i < m.data.length → (m.data.getD i default).state = .occupied →
    findIdx hf m ((m.data.getD i default).key) = some i

/-- The grow-then-locate prefix of `add_with_hash`: the table on which
`get_bucket` is run (after the possible `grow()` of lines 440-442). -/
def addStep (hf : K → Nat) (f : Nat) (m : Hashmap K V) : Hashmap K V :=
  if growCheckB m then growF hf f m else m

/-- Every re-insertion performed by the loop of `reserve` succeeds, i.e. no
`add_with_hash` hits the defensive table-full null return.  The spec flags
probe-sequence coverage as an open question; this predicate isolates the
well-behaved case. -/
def reinsertOKB (hf : K → Nat) (f : Nat) (acc : Hashmap K V) :
    List (Bucket K V) → Bool
  | [] => true
  | b :: rest =>
    if b.state = .occupied then
      (addWH hf f acc b.key b.value b.hash).2.isSome &&
        reinsertOKB hf f (addWH hf f acc b.key b.value b.hash).1 rest
    else reinsertOKB hf f acc rest

/-! Characterization machinery: the probe loops are related to a first-index
search over the visited-stop sequence `wstop`, and all correctness arguments
are carried out at that level. -/

/-- First `t` with `s ≤ t < s + fuel` and `p t = true`, scanning upward. -/
def firstFrom (p : Nat → Bool) : Nat → Nat → Option Nat
  | _s, 0 => none
  | s, fuel + 1 => if p s then some s else firstFrom p (s + 1) fuel

/-- The bucket at the `t`-th probe stop. -/
def stopB (data : List (Bucket K V)) (cap h t : Nat) : Bucket K V :=
  data.getD (wstop cap h t) default

/-- The occupied-and-equal test of the probe loops: Occupied flag set, cached
hash equal, keys equal. -/
def matchB (k : K) (h : Nat) (b : Bucket K V) : Bool :=
  decide (b.state = .occupied ∧ b.hash = h ∧ b.key = k)

/-- A stop at which a probe loop stops advancing: an Empty bucket or a match. -/
def decB (data : List (Bucket K V)) (cap : Nat) (k : K) (h t : Nat) : Bool :=
  decide ((stopB data cap h t).state = .empty) || matchB k h (stopB data cap h t)

/-- A Tombstone stop. -/
def tombP (data : List (Bucket K V)) (cap h t : Nat) : Bool :=
  decide ((stopB data cap h t).state = .tombstone)

/-- The find loop expressed over the visited-stop sequence: the result is
determined by the first stop that is Empty or a match. -/
def findOutcome (data : List (Bucket K V)) (cap : Nat) (k : K) (h : Nat) :
    Option Nat :=
  match firstFrom (decB data cap k h) 0 cap with
  | some t =>
    if matchB k h (stopB data cap h t) then some (wstop cap h t) else none
  | none => none

/-- The get_bucket loop expressed over the visited-stop sequence. -/
def gbOutcome (data : List (Bucket K V)) (cap : Nat) (k : K) (h : Nat) :
    Option Nat × List (Bucket K V) :=
  match firstFrom (decB data cap k h) 0 cap with
  | some t =>
    if matchB k h (stopB data cap h t) then (some (wstop cap h t), data)
    else
      match firstFrom (tombP data cap h) 0 t with
      | some u => (some (wstop cap h u), setHashAt data (wstop cap h u) h)
      | none => (some (wstop cap h t), setHashAt data (wstop cap h t) h)
  | none =>
    match firstFrom (tombP data cap h) 0 cap with
    | some u => (some (wstop cap h u), setHashAt data (wstop cap h u) h)
    | none => (none, data)

/-- Modelled from the spec, section 4.2 (the lookup contract): `find` walks
the probe-stop sequence; the first stop holding an Empty bucket ends the
search with "not found"; an Occupied stop with equal cached hash and equal
key returns that bucket; Tombstone stops (and non-matching Occupied stops)
are passed over; at most `capacity` probes are made in total, after which
"not found" is returned. -/
def findSpecModel (hf : K → Nat) (m : Hashmap K V) (k : K) : Option Nat :=
  match firstFrom (decB m.data m.capacity k (hf k)) 0 m.capacity with
  | some t =>
    if matchB k (hf k) (stopB m.data m.capacity (hf k) t) then
      some (wstop m.capacity (hf k) t)
    else none
  | none => none

/-- The divisor `capacity - 1` of the `%` inside `probe` at the moment `get`
reaches it: `get` calls `get_bucket` whenever `capacity != 0` (lines
383-388), and `get_bucket` evaluates `probe(hash) = 1 + hash % (capacity - 1)`
unconditionally before its loop (line 275).  `none` means `get` returns
early and `probe` is never evaluated. -/
def getProbeDivisor (m : Hashmap K V) : Option Nat :=
  if m.capacity = 0 then none else some (m.capacity - 1)

/-! The hashset of `src/hashset.h`.  It is embedded separately because its
code differs from the hashmap in two places that are modelled faithfully:
`hashset::get_bucket`'s second branch re-tests the OCCUPIED flag (line 298),
so its tombstone-recording branch is dead code and a Tombstone falls through
to the Empty branch; and `hashset::find` does not increment `key_probe`
(line 494, "Step size remains constant"), while its own `get_bucket` does
(line 315). -/

/-- One slot of `hashset_bucket<Key>` (src/hashset.h lines 24-32): key,
flag byte, cached hash; no value. -/
structure SBucket (K : Type) where
  state : BucketState
  hash : Nat
  key : K
deriving DecidableEq, Repr, Inhabited

/-- The hashset table (src/hashset.h lines 83-85). -/
structure Hashset (K : Type) where
  data : List (SBucket K)
  size : Nat
deriving Repr

/-- The hashset `capacity` field. -/
def Hashset.capacity (s : Hashset K) : Nat := s.data.length

/-- The hashset default constructor (src/hashset.h line 113). -/
def emptySet (K : Type) : Hashset K := ⟨[], 0⟩

/-- A zero-initialized hashset bucket. -/
def zeroSBucket (K : Type) [Inhabited K] : SBucket K := ⟨.empty, 0, default⟩

/-- The reserved-capacity hashset constructor (src/hashset.h lines 124-127). -/
def mkReservedSet (K : Type) [Inhabited K] (r : Nat) : Hashset K :=
  ⟨List.replicate r (zeroSBucket K), 0⟩

/-- The loop of `hashset::find` (src/hashset.h lines 484-497).  Unlike the
hashmap's find loop, `key_probe` is NOT incremented: the probe step stays
constant (line 494 has no `key_probe++`). -/
def sFindLoop (data : List (SBucket K)) (cap : Nat) (k : K) (h : Nat) :
    Nat → Nat → Nat → Option Nat
  | _idx, _kp, 0 => none
  | idx, kp, fuel + 1 =>
    let b := data.getD idx default
    if b.state = .occupied then
      if b.hash = h ∧ b.key = k then some idx
      else sFindLoop data cap k h ((idx + kp) % cap) kp fuel
    else if b.state = .tombstone then
      sFindLoop data cap k h ((idx + kp) % cap) kp fuel
    else none

/-- `hashset::find(key)` (src/hashset.h lines 474-499). -/
def sFindIdx (hf : K → Nat) (s : Hashset K) (k : K) : Option Nat :=
  if s.size = 0 then none
  else
    sFindLoop s.data s.capacity k (hf k) (hf k % s.capacity)
      (probeStep s.capacity (hf k)) s.capacity

/-- `hashset::contains(key)` (src/hashset.h line 547). -/
def sContainsB (hf : K → Nat) (s : Hashset K) (k : K) : Bool :=
  (sFindIdx hf s k).isSome

/-- Overwrite only the cached `_hash` field of hashset slot `i`. -/
def sSetHashAt (data : List (SBucket K)) (i h : Nat) : List (SBucket K) :=
  data.set i { data.getD i default with hash := h }

/-- The loop of `hashset::get_bucket` (src/hashset.h lines 292-318).  The
second branch repeats the test `bucket->_flags & HASHSET_BUCKET_OCCUPIED`
(line 298) instead of testing the tombstone flag, so it can never be taken:
a Tombstone reaches the final Empty branch and is used directly, and
`first_tombstone` stays null.  `key_probe` IS incremented here (line 315). -/
def sGetBucketLoop (data : List (SBucket K)) (cap : Nat) (k : K) (h : Nat) :
    Nat → Nat → Option Nat → Nat → Option Nat × List (SBucket K)
  | _idx, _kp, ft, 0 =>
    match ft with
    | some t => (some t, sSetHashAt data t h)
    | none => (none, data)
  | idx, kp, ft, fuel + 1 =>
    let b := data.getD idx default
    if b.state = .occupied then
      if b.hash = h ∧ b.key = k then (some idx, data)
      else sGetBucketLoop data cap k h ((idx + kp) % cap) (kp + 1) ft fuel
    else if b.state = .occupied then
      sGetBucketLoop data cap k h ((idx + kp) % cap) (kp + 1)
        (match ft with | some u => some u | none => some idx) fuel
    else
      (some (ft.getD idx), sSetHashAt data (ft.getD idx) h)

/-- `hashset::get_bucket(key, hash_created)` (src/hashset.h lines 282-328). -/
def sGetBucket (hf : K → Nat) (data : List (SBucket K)) (cap : Nat) (k : K)
    (h : Nat) : Option Nat × Nat × List (SBucket K) :=
  let kh := resolveHash hf k h
  let r := sGetBucketLoop data cap k kh (kh % cap) (probeStep cap kh) none cap
  (r.1, kh, r.2)

/-- The hashset growth test (src/hashset.h line 426), same arithmetic as the
hashmap's. -/
def sGrowCheckB (s : Hashset K) : Bool := 3 * s.capacity ≤ 4 * (s.size + 1)

/-- The re-insertion loop of `hashset::reserve` (src/hashset.h lines
356-360), parameterized by the add operation (same fuel scheme as the
hashmap side). -/
def sReinsertAllWith (addF : Hashset K → K → Nat → Hashset K × Option Nat)
    (acc : Hashset K) : List (SBucket K) → Hashset K
  | [] => acc
  | b :: rest =>
    sReinsertAllWith addF
      (if b.state = .occupied then (addF acc b.key b.hash).1 else acc) rest

/-- `hashset::reserve(n)` (src/hashset.h lines 353-363), parameterized. -/
def sReserveFWith (addF : Hashset K → K → Nat → Hashset K × Option Nat)
    (s : Hashset K) (r : Nat) : Hashset K :=
  if s.capacity < r then sReinsertAllWith addF (mkReservedSet K r) s.data else s

/-- `hashset::grow()` (src/hashset.h lines 373-376), parameterized. -/
def sGrowFWith (addF : Hashset K → K → Nat → Hashset K × Option Nat)
    (s : Hashset K) : Hashset K :=
  sReserveFWith addF s (if s.capacity = 0 then 64 else 2 * s.capacity)

/-- `hashset::add_with_hash(key, hash)` (src/hashset.h lines 425-443). -/
def sAddWH (hf : K → Nat) : Nat → Hashset K → K → Nat →
    Hashset K × Option Nat
  | 0, s, _, _ => (s, none)
  | fuel + 1, s, k, h =>
    let s1 := if sGrowCheckB s then
        sGrowFWith (fun a k2 h2 => sAddWH hf fuel a k2 h2) s
      else s
    let kh := resolveHash hf k h
    match sGetBucket hf s1.data s1.capacity k kh with
    | (none, _, d2) => ({ s1 with data := d2 }, none)
    | (some i, _, d2) =>
      if (d2.getD i default).state = .occupied then
        ({ s1 with data := d2 }, some i)
      else
        ({ data := d2.set i ⟨.occupied, kh, k⟩, size := s1.size + 1 }, some i)

/-- `hashset::grow()` at a given fuel level. -/
def sGrowF (hf : K → Nat) (fuel : Nat) (s : Hashset K) : Hashset K :=
  sGrowFWith (sAddWH hf fuel) s

/-- `hashset::reserve(n)` at a given fuel level. -/
def sReserveF (hf : K → Nat) (fuel : Nat) (s : Hashset K) (r : Nat) :
    Hashset K :=
  sReserveFWith (sAddWH hf fuel) s r

/-- `hashset::add(key)` (src/hashset.h line 514). -/
def sAdd (hf : K → Nat) (fuel : Nat) (s : Hashset K) (k : K) :
    Hashset K × Option Nat :=
  sAddWH hf fuel s k sentinel

/-- `hashset::remove(key)` (src/hashset.h lines 528-537). -/
def sRemoveSt (hf : K → Nat) (s : Hashset K) (k : K) :
    Hashset K × Option Nat :=
  match sFindIdx hf s k with
  | some i =>
    ({ data := s.data.set i { s.data.getD i default with state := .tombstone },
       size := s.size - 1 }, some i)
  | none => (s, none)

/-! Concrete instances used in witnesses and counterexamples.  `HashFunc`
is a template parameter of the C++ table, so concrete hash functors are
ordinary instantiations. -/

/-- Identity hash functor on Nat keys. -/
def idHash : Nat → Nat := fun n => n

/-- Constant-zero hash functor: every key collides at bucket 0. -/
def zeroHash : Nat → Nat := fun _ => 0

/-- Hash functor sending keys 0,1,2,3,4 to 0, 50, 51, 45, 32. -/
def hashC7 : Nat → Nat := fun k => [0, 50, 51, 45, 32].getD k 0

/-- Three colliding insertions (all hash 0) into a default-constructed
hashmap. -/
def mapC2 : Hashmap Nat Nat :=
  (add zeroHash 1
    ((add zeroHash 1 ((add zeroHash 1 (emptyMap Nat Nat) 0 10).1) 1 11).1)
    2 12).1

/-- The same three insertions into a default-constructed hashset. -/
def setC2 : Hashset Nat :=
  (sAdd zeroHash 1 ((sAdd zeroHash 1 ((sAdd zeroHash 1 (emptySet Nat) 0).1)
    1).1) 2).1

/-- Five insertions into a capacity-7 table under `hashC7`; each key lands
on its home slot 0..4 and no insert triggers a grow (the load check
`4*(size+1) >= 3*7` first fires at size 5). -/
def mapC7 : Hashmap Nat Nat :=
  (add hashC7 1 ((add hashC7 1 ((add hashC7 1 ((add hashC7 1 ((add hashC7 1
    (mkReserved Nat Nat 7) 0 100).1) 1 101).1) 2 102).1) 3 103).1) 4 104).1

/-- A capacity-4 table holding the single entry 1 ↦ 10. -/
def mapW : Hashmap Nat Nat := (add idHash 1 (mkReserved Nat Nat 4) 1 10).1

/-- Two `operator[]` insertions into a capacity-2 table (keys 0 and 1 land
on their home slots; neither call grows, because `operator[]` only grows on
capacity 0). -/
def mapC4 : Option (Hashmap Nat Nat) :=
  (opIndex idHash 1 (mkReserved Nat Nat 2) 0).bind fun p =>
    (opIndex idHash 1 p.1 1).map fun q => q.1

theorem firstFrom_intro_none {p : Nat → Bool} :
    ∀ fuel s, (∀ u, s ≤ u → u < s + fuel → p u = false) →
    firstFrom p s fuel = none := by
  intro fuel
  induction fuel with
  | zero => intro s _; rfl
  | succ f ih =>
    intro s hall
    have hps : p s = false := hall s (Nat.le_refl _) (by omega)
    simp only [firstFrom, hps, Bool.false_eq_true, if_false]
    exact ih (s + 1) fun u hu1 hu2 => hall u (by omega) (by omega)

theorem firstFrom_intro {p : Nat → Bool} :
    ∀ fuel s t, p t = true → s ≤ t → t < s + fuel →
    (∀ u, s ≤ u → u < t → p u = false) →
    firstFrom p s fuel = some t := by
  intro fuel
  induction fuel with
  | zero => intro s t _ _ h2 _; omega
  | succ f ih =>
    intro s t hpt h1 h2 hmin
    by_cases hst : s = t
    · subst hst; simp [firstFrom, hpt]
    · have hps : p s = false := hmin s (Nat.le_refl _) (by omega)
      simp only [firstFrom, hps, Bool.false_eq_true, if_false]
      exact ih (s + 1) t hpt (by omega) (by omega)
        fun u hu1 hu2 => hmin u (by omega) hu2

theorem firstFrom_some {p : Nat → Bool} :
    ∀ fuel s t, firstFrom p s fuel = some t →
    p t = true ∧ s ≤ t ∧ t < s + fuel ∧ ∀ u, s ≤ u → u < t → p u = false := by
  intro fuel
  induction fuel with
  | zero => intro s t h; exact absurd h (by simp [firstFrom])
  | succ f ih =>
    intro s t h
    by_cases hps : p s
    · simp only [firstFrom, hps, if_true, Option.some.injEq] at h
      subst h
      exact ⟨hps, (Nat.le_refl _), by omega, fun u h1 h2 => by omega⟩
    · simp only [firstFrom, hps, Bool.false_eq_true, if_false] at h
      obtain ⟨h1, h2, h3, h4⟩ := ih (s + 1) t h
      refine ⟨h1, by omega, by omega, fun u hu1 hu2 => ?_⟩
      rcases Nat.eq_or_lt_of_le hu1 with h | h
      · subst h; exact Bool.eq_false_iff.mpr hps
      · exact h4 u h hu2

theorem firstFrom_none {p : Nat → Bool} :
    ∀ fuel s, firstFrom p s fuel = none →
    ∀ u, s ≤ u → u < s + fuel → p u = false := by
  intro fuel
  induction fuel with
  | zero => intro s _ u _ _; omega
  | succ f ih =>
    intro s h u h1 h2
    by_cases hps : p s
    · simp [firstFrom, hps] at h
    · rcases Nat.eq_or_lt_of_le h1 with h3 | h3
      · subst h3; exact Bool.eq_false_iff.mpr hps
      · simp only [firstFrom, hps, Bool.false_eq_true, if_false] at h
        exact ih (s + 1) h u h3 (by omega)

theorem reinsertAll_nil (hf : K → Nat) (f : Nat) (acc : Hashmap K V) :
    reinsertAll hf f acc [] = acc := rfl

theorem reinsertAll_cons (hf : K → Nat) (f : Nat) (acc : Hashmap K V)
    (b : Bucket K V) (rest : List (Bucket K V)) :
    reinsertAll hf f acc (b :: rest) =
      reinsertAll hf f
        (if b.state = .occupied then (addWH hf f acc b.key b.value b.hash).1
         else acc) rest := rfl

theorem growF_eq (hf : K → Nat) (f : Nat) (m : Hashmap K V) :
    growF hf f m =
      reserveF hf f m (if m.capacity = 0 then 64 else 2 * m.capacity) := rfl

theorem reserveF_eq (hf : K → Nat) (f : Nat) (m : Hashmap K V) (r : Nat) :
    reserveF hf f m r =
      if m.capacity < r then reinsertAll hf f (mkReserved K V r) m.data
      else m := rfl

theorem matchB_true_iff (k : K) (h : Nat) (b : Bucket K V) :
    matchB k h b = true ↔ (b.state = .occupied ∧ b.hash = h ∧ b.key = k) := by
  simp [matchB]

theorem matchB_false_iff (k : K) (h : Nat) (b : Bucket K V) :
    matchB k h b = false ↔ ¬(b.state = .occupied ∧ b.hash = h ∧ b.key = k) := by
  simp [matchB]

theorem decB_true_iff (data : List (Bucket K V)) (cap : Nat) (k : K)
    (h t : Nat) : decB data cap k h t = true ↔
    ((stopB data cap h t).state = .empty ∨
      matchB k h (stopB data cap h t) = true) := by
  simp [decB]

theorem decB_false_iff (data : List (Bucket K V)) (cap : Nat) (k : K)
    (h t : Nat) : decB data cap k h t = false ↔
    ((stopB data cap h t).state ≠ .empty ∧
      matchB k h (stopB data cap h t) = false) := by
  simp [decB]

theorem tombP_true_iff (data : List (Bucket K V)) (cap h t : Nat) :
    tombP data cap h t = true ↔ (stopB data cap h t).state = .tombstone := by
  simp [tombP]

theorem tombP_false_iff (data : List (Bucket K V)) (cap h t : Nat) :
    tombP data cap h t = false ↔ (stopB data cap h t).state ≠ .tombstone := by
  simp [tombP]

theorem findLoop_bridge (data : List (Bucket K V)) (cap : Nat) (k : K)
    (h : Nat) :
    ∀ fuel s, s + fuel = cap →
    (∀ u, u < s → decB data cap k h u = false) →
    findLoop data cap k h (wstop cap h s) (probeStep cap h + s) fuel =
      findOutcome data cap k h := by
  intro fuel
  induction fuel with
  | zero =>
    intro s hs hnd
    have hnone : firstFrom (decB data cap k h) 0 cap = none :=
      firstFrom_intro_none cap 0 fun u _ hu => hnd u (by omega)
    simp [findLoop, findOutcome, hnone]
  | succ f ih =>
    intro s hs hnd
    have hrec : decB data cap k h s = false →
        findLoop data cap k h
          ((wstop cap h s + (probeStep cap h + s)) % cap)
          (probeStep cap h + s + 1) f = findOutcome data cap k h := by
      intro hdec
      have h1 : (wstop cap h s + (probeStep cap h + s)) % cap =
          wstop cap h (s + 1) := rfl
      have h2 : probeStep cap h + s + 1 = probeStep cap h + (s + 1) := by omega
      rw [h1, h2]
      exact ih (s + 1) (by omega) fun u hu => by
        rcases Nat.lt_succ_iff_lt_or_eq.mp hu with hu | hu
        · exact hnd u hu
        · subst hu; exact hdec
    cases hst : (data.getD (wstop cap h s) default).state with
    | occupied =>
      have hstS : (stopB data cap h s).state = BucketState.occupied := hst
      by_cases hm : (data.getD (wstop cap h s) default).hash = h ∧
          (data.getD (wstop cap h s) default).key = k
      · have hmB : matchB k h (stopB data cap h s) = true :=
          (matchB_true_iff k h _).mpr ⟨hstS, hm.1, hm.2⟩
        have hdec : decB data cap k h s = true :=
          (decB_true_iff data cap k h s).mpr (Or.inr hmB)
        have hfirst : firstFrom (decB data cap k h) 0 cap = some s :=
          firstFrom_intro cap 0 s hdec (by omega) (by omega)
            fun u _ hu => hnd u hu
        simp only [findLoop, hst, reduceCtorEq, if_false, if_true]
        rw [if_pos hm]
        simp [findOutcome, hfirst, hmB]
      · have hdec : decB data cap k h s = false := by
          rw [decB_false_iff]
          refine ⟨by rw [hstS]; decide, (matchB_false_iff k h _).mpr ?_⟩
          exact fun hc => hm ⟨hc.2.1, hc.2.2⟩
        simp only [findLoop, hst, reduceCtorEq, if_false, if_true]
        rw [if_neg hm]
        exact hrec hdec
    | tombstone =>
      have hstS : (stopB data cap h s).state = BucketState.tombstone := hst
      have hdec : decB data cap k h s = false := by
        rw [decB_false_iff]
        refine ⟨by rw [hstS]; decide, (matchB_false_iff k h _).mpr ?_⟩
        intro hc
        rw [hstS] at hc
        exact absurd hc.1 (by decide)
      simp only [findLoop, hst, reduceCtorEq, if_false, if_true]
      exact hrec hdec
    | empty =>
      have hstS : (stopB data cap h s).state = BucketState.empty := hst
      have hdec : decB data cap k h s = true :=
        (decB_true_iff data cap k h s).mpr (Or.inl hstS)
      have hfirst : firstFrom (decB data cap k h) 0 cap = some s :=
        firstFrom_intro cap 0 s hdec (by omega) (by omega)
          fun u _ hu => hnd u hu
      have hmB : matchB k h (stopB data cap h s) = false := by
        rw [matchB_false_iff]
        intro hc
        rw [hstS] at hc
        exact absurd hc.1 (by decide)
      simp only [findLoop, hst, reduceCtorEq, if_false, if_true]
      simp [findOutcome, hfirst, hmB]

theorem getBucketLoop_bridge (data : List (Bucket K V)) (cap : Nat) (k : K)
    (h : Nat) :
    ∀ fuel s ft, s + fuel = cap →
    (∀ u, u < s → decB data cap k h u = false) →
    (∀ j, ft = some j → ∃ t0, t0 < s ∧ wstop cap h t0 = j ∧
        tombP data cap h t0 = true ∧
        ∀ t1, t1 < t0 → tombP data cap h t1 = false) →
    (ft = none → ∀ t0, t0 < s → tombP data cap h t0 = false) →
    getBucketLoop data cap k h (wstop cap h s) (probeStep cap h + s) ft fuel =
      gbOutcome data cap k h := by
  intro fuel
  induction fuel with
  | zero =>
    intro s ft hs hnd hftA hftB
    have hnone : firstFrom (decB data cap k h) 0 cap = none :=
      firstFrom_intro_none cap 0 fun u _ hu => hnd u (by omega)
    cases hft : ft with
    | some j =>
      obtain ⟨t0, ht0s, hw, htt, hmin⟩ := hftA j hft
      have hfirstT : firstFrom (tombP data cap h) 0 cap = some t0 :=
        firstFrom_intro cap 0 t0 htt (by omega) (by omega)
          fun u _ hu => hmin u hu
      simp [getBucketLoop, gbOutcome, hnone, hfirstT, hw]
    | none =>
      have hnoneT : firstFrom (tombP data cap h) 0 cap = none :=
        firstFrom_intro_none cap 0 fun u _ hu => hftB hft u (by omega)
      simp [getBucketLoop, gbOutcome, hnone, hnoneT]
  | succ f ih =>
    intro s ft hs hnd hftA hftB
    cases hst : (data.getD (wstop cap h s) default).state with
    | occupied =>
      have hstS : (stopB data cap h s).state = BucketState.occupied := hst
      by_cases hm : (data.getD (wstop cap h s) default).hash = h ∧
          (data.getD (wstop cap h s) default).key = k
      · have hmB : matchB k h (stopB data cap h s) = true :=
          (matchB_true_iff k h _).mpr ⟨hstS, hm.1, hm.2⟩
        have hdec : decB data cap k h s = true :=
          (decB_true_iff data cap k h s).mpr (Or.inr hmB)
        have hfirst : firstFrom (decB data cap k h) 0 cap = some s :=
          firstFrom_intro cap 0 s hdec (by omega) (by omega)
            fun u _ hu => hnd u hu
        simp only [getBucketLoop, hst, reduceCtorEq, if_false, if_true]
        rw [if_pos hm]
        simp [gbOutcome, hfirst, hmB]
      · have hdec : decB data cap k h s = false := by
          rw [decB_false_iff]
          refine ⟨by rw [hstS]; decide, (matchB_false_iff k h _).mpr ?_⟩
          exact fun hc => hm ⟨hc.2.1, hc.2.2⟩
        have hstep : getBucketLoop data cap k h
            ((wstop cap h s + (probeStep cap h + s)) % cap)
            (probeStep cap h + s + 1) ft f = gbOutcome data cap k h := by
          have h1 : (wstop cap h s + (probeStep cap h + s)) % cap =
              wstop cap h (s + 1) := rfl
          have h2 : probeStep cap h + s + 1 = probeStep cap h + (s + 1) := by
            omega
          rw [h1, h2]
          refine ih (s + 1) ft (by omega) (fun u hu => ?_)
            (fun j hj => ?_) (fun hn t0 ht0 => ?_)
          · rcases Nat.lt_succ_iff_lt_or_eq.mp hu with hu | hu
            · exact hnd u hu
            · subst hu; exact hdec
          · obtain ⟨t0, ht0, rest⟩ := hftA j hj
            exact ⟨t0, by omega, rest⟩
          · rcases Nat.lt_succ_iff_lt_or_eq.mp ht0 with ht0 | ht0
            · exact hftB hn t0 ht0
            · subst ht0
              rw [tombP_false_iff, hstS]
              decide
        simp only [getBucketLoop, hst, reduceCtorEq, if_false, if_true]
        rw [if_neg hm]
        exact hstep
    | tombstone =>
      have hstS : (stopB data cap h s).state = BucketState.tombstone := hst
      have hdec : decB data cap k h s = false := by
        rw [decB_false_iff]
        refine ⟨by rw [hstS]; decide, (matchB_false_iff k h _).mpr ?_⟩
        intro hc
        rw [hstS] at hc
        exact absurd hc.1 (by decide)
      have htombs : tombP data cap h s = true := (tombP_true_iff _ _ _ _).mpr hstS
      have hnd1 : ∀ u, u < s + 1 → decB data cap k h u = false := fun u hu => by
        rcases Nat.lt_succ_iff_lt_or_eq.mp hu with hu | hu
        · exact hnd u hu
        · subst hu; exact hdec
      have h1 : (wstop cap h s + (probeStep cap h + s)) % cap =
          wstop cap h (s + 1) := rfl
      have h2 : probeStep cap h + s + 1 = probeStep cap h + (s + 1) := by omega
      cases hft : ft with
      | some u =>
        have hstep : getBucketLoop data cap k h
            ((wstop cap h s + (probeStep cap h + s)) % cap)
            (probeStep cap h + s + 1) (some u) f = gbOutcome data cap k h := by
          rw [h1, h2]
          refine ih (s + 1) (some u) (by omega) hnd1
            (fun j hj => ?_) (fun hn => by cases hn)
          rw [Option.some.injEq] at hj
          subst hj
          obtain ⟨t0, ht0, rest⟩ := hftA u hft
          exact ⟨t0, by omega, rest⟩
        simp only [getBucketLoop, hst, reduceCtorEq, if_false, if_true]
        exact hstep
      | none =>
        have hstep : getBucketLoop data cap k h
            ((wstop cap h s + (probeStep cap h + s)) % cap)
            (probeStep cap h + s + 1) (some (wstop cap h s)) f =
            gbOutcome data cap k h := by
          rw [h1, h2]
          refine ih (s + 1) (some (wstop cap h s)) (by omega) hnd1
            (fun j hj => ?_) (fun hn => by cases hn)
          rw [Option.some.injEq] at hj
          exact ⟨s, by omega, hj, htombs, fun t1 ht1 => hftB hft t1 ht1⟩
        simp only [getBucketLoop, hst, reduceCtorEq, if_false, if_true]
        exact hstep
    | empty =>
      have hstS : (stopB data cap h s).state = BucketState.empty := hst
      have hdec : decB data cap k h s = true :=
        (decB_true_iff data cap k h s).mpr (Or.inl hstS)
      have hfirst : firstFrom (decB data cap k h) 0 cap = some s :=
        firstFrom_intro cap 0 s hdec (by omega) (by omega)
          fun u _ hu => hnd u hu
      have hmB : matchB k h (stopB data cap h s) = false := by
        rw [matchB_false_iff]
        intro hc
        rw [hstS] at hc
        exact absurd hc.1 (by decide)
      cases hft : ft with
      | some j =>
        obtain ⟨t0, ht0s, hw, htt, hmin⟩ := hftA j hft
        have hfirstT : firstFrom (tombP data cap h) 0 s = some t0 :=
          firstFrom_intro s 0 t0 htt (by omega) (by omega)
            fun u _ hu => hmin u hu
        simp only [getBucketLoop, hst, reduceCtorEq, if_false, if_true]
        simp [gbOutcome, hfirst, hmB, hfirstT, hw]
      | none =>
        have hnoneT : firstFrom (tombP data cap h) 0 s = none :=
          firstFrom_intro_none s 0 fun u _ hu => hftB hft u (by omega)
        simp only [getBucketLoop, hst, reduceCtorEq, if_false, if_true]
        simp [gbOutcome, hfirst, hmB, hnoneT]

/-! Basic utilities about list access, the walk, and occupancy counting. -/

theorem getD_set_same {α : Type} (l : List α) (i : Nat) (b d : α)
    (h : i < l.length) : (l.set i b).getD i d = b := by
  simp [List.getD_eq_getElem?_getD, List.getElem?_set_self h]

theorem getD_set_other {α : Type} (l : List α) (i j : Nat) (b d : α)
    (h : i ≠ j) : (l.set i b).getD j d = l.getD j d := by
  simp [List.getD_eq_getElem?_getD, List.getElem?_set_ne h]

theorem getD_mem_or_default {α : Type} (l : List α) (i : Nat) (d : α) :
    l.getD i d ∈ l ∨ l.getD i d = d := by
  by_cases h : i < l.length
  · left
    rw [List.getD_eq_getElem?_getD, List.getElem?_eq_getElem h]
    exact List.getElem_mem h
  · right
    rw [List.getD_eq_getElem?_getD, List.getElem?_eq_none (by omega)]
    rfl

theorem default_bucket_not_occupied :
    ((default : Bucket K V)).state ≠ .occupied := fun h => nomatch h

theorem getD_replicate_self {α : Type} (r i : Nat) (z d : α) (h : i < r) :
    (List.replicate r z).getD i d = z := by
  rw [List.getD_eq_getElem?_getD, List.getElem?_replicate]
  simp [h]

theorem wstop_lt (cap h : Nat) (hcap : 0 < cap) : ∀ t, wstop cap h t < cap := by
  intro t
  cases t with
  | zero => exact Nat.mod_lt _ hcap
  | succ t => exact Nat.mod_lt _ hcap

theorem occCount_nil : occCount ([] : List (Bucket K V)) = 0 := rfl

theorem occCount_cons (b : Bucket K V) (l : List (Bucket K V)) :
    occCount (b :: l) =
      occCount l + (if b.state = .occupied then 1 else 0) := by
  simp [occCount, List.countP_cons]

theorem occCount_le_length (l : List (Bucket K V)) : occCount l ≤ l.length :=
  List.countP_le_length _

theorem occCount_replicate_zero (r : Nat) :
    occCount (List.replicate r (zeroBucket K V)) = 0 := by
  rw [occCount, List.countP_eq_zero]
  intro a ha
  rw [List.eq_of_mem_replicate ha]
  simp [zeroBucket]

theorem occCount_set (l : List (Bucket K V)) (i : Nat) (b : Bucket K V)
    (h : i < l.length) :
    occCount (l.set i b) + (if (l.getD i default).state = .occupied then 1 else 0)
      = occCount l + (if b.state = .occupied then 1 else 0) := by
  induction l generalizing i with
  | nil => simp at h
  | cons a l ih =>
    cases i with
    | zero => simp [occCount_cons, List.set]; omega
    | succ i =>
      simp only [List.set, occCount_cons, List.getD_cons_succ]
      have := ih i (by simpa using h)
      omega

theorem occCount_set_state_eq (l : List (Bucket K V)) (i : Nat)
    (b : Bucket K V) (h : b.state = (l.getD i default).state) :
    occCount (l.set i b) = occCount l := by
  by_cases hi : i < l.length
  · have := occCount_set l i b hi
    rw [h] at this
    omega
  · rw [List.set_eq_of_length_le (by omega)]

theorem occCount_pos_of_occupied (l : List (Bucket K V)) (i : Nat)
    (hi : i < l.length) (ho : (l.getD i default).state = .occupied) :
    1 ≤ occCount l := by
  induction l generalizing i with
  | nil => simp at hi
  | cons a l ih =>
    cases i with
    | zero =>
      rw [List.getD_cons_zero] at ho
      simp [occCount_cons, ho]
    | succ i =>
      rw [List.getD_cons_succ] at ho
      have := ih i (by simpa using hi) ho
      rw [occCount_cons]
      omega

theorem resolveHash_idem (hf : K → Nat) (k : K) (h : Nat) :
    resolveHash hf k (resolveHash hf k h) = resolveHash hf k h := by
  by_cases h1 : h = sentinel
  · by_cases h2 : hf k = sentinel <;> simp [resolveHash, h1, h2]
  · simp [resolveHash, h1]

/-! Corollaries of the bridges: the public `find` body and `get_bucket`
expressed by their outcome functions. -/

theorem findRaw_eq_outcome (hf : K → Nat) (m : Hashmap K V) (k : K) :
    findRaw hf m k = findOutcome m.data m.capacity k (hf k) := by
  have := findLoop_bridge m.data m.capacity k (hf k) m.capacity 0 (by omega)
    (fun u hu => absurd hu (by omega))
  simpa [findRaw, wstop] using this

theorem getBucket_eq_outcome (hf : K → Nat) (data : List (Bucket K V))
    (cap : Nat) (k : K) (h : Nat) :
    getBucket hf data cap k h =
      ((gbOutcome data cap k (resolveHash hf k h)).1, resolveHash hf k h,
        (gbOutcome data cap k (resolveHash hf k h)).2) := by
  have := getBucketLoop_bridge data cap k (resolveHash hf k h) cap 0 none
    (by omega) (fun u hu => absurd hu (by omega))
    (fun j hj => by cases hj) (fun _ t0 ht0 => absurd ht0 (by omega))
  simp only [getBucket]
  rw [show (resolveHash hf k h % cap) = wstop cap (resolveHash hf k h) 0 from rfl]
  rw [show probeStep cap (resolveHash hf k h) =
    probeStep cap (resolveHash hf k h) + 0 from by omega]
  rw [this]

/-! Reduction lemmas for the outcome functions, then elimination and
introduction principles. -/

theorem findOutcome_red_some {data : List (Bucket K V)} {cap : Nat} {k : K}
    {h t : Nat} (hfi : firstFrom (decB data cap k h) 0 cap = some t) :
    findOutcome data cap k h =
      if matchB k h (stopB data cap h t) then some (wstop cap h t) else none := by
  unfold findOutcome
  rw [hfi]

theorem findOutcome_red_none {data : List (Bucket K V)} {cap : Nat} {k : K}
    {h : Nat} (hfi : firstFrom (decB data cap k h) 0 cap = none) :
    findOutcome data cap k h = none := by
  unfold findOutcome
  rw [hfi]

theorem gbOutcome_red_found {data : List (Bucket K V)} {cap : Nat} {k : K}
    {h t : Nat} (hfi : firstFrom (decB data cap k h) 0 cap = some t)
    (hmb : matchB k h (stopB data cap h t) = true) :
    gbOutcome data cap k h = (some (wstop cap h t), data) := by
  unfold gbOutcome
  rw [hfi]
  simp only [hmb, if_true]

theorem gbOutcome_red_emptyT {data : List (Bucket K V)} {cap : Nat} {k : K}
    {h t u : Nat} (hfi : firstFrom (decB data cap k h) 0 cap = some t)
    (hmb : matchB k h (stopB data cap h t) = false)
    (hfT : firstFrom (tombP data cap h) 0 t = some u) :
    gbOutcome data cap k h =
      (some (wstop cap h u), setHashAt data (wstop cap h u) h) := by
  unfold gbOutcome
  rw [hfi]
  simp only [hmb, Bool.false_eq_true, if_false]
  rw [hfT]

theorem gbOutcome_red_emptyE {data : List (Bucket K V)} {cap : Nat} {k : K}
    {h t : Nat} (hfi : firstFrom (decB data cap k h) 0 cap = some t)
    (hmb : matchB k h (stopB data cap h t) = false)
    (hfT : firstFrom (tombP data cap h) 0 t = none) :
    gbOutcome data cap k h =
      (some (wstop cap h t), setHashAt data (wstop cap h t) h) := by
  unfold gbOutcome
  rw [hfi]
  simp only [hmb, Bool.false_eq_true, if_false]
  rw [hfT]

theorem gbOutcome_red_tomb {data : List (Bucket K V)} {cap : Nat} {k : K}
    {h u : Nat} (hfi : firstFrom (decB data cap k h) 0 cap = none)
    (hfT : firstFrom (tombP data cap h) 0 cap = some u) :
    gbOutcome data cap k h =
      (some (wstop cap h u), setHashAt data (wstop cap h u) h) := by
  unfold gbOutcome
  rw [hfi, hfT]

theorem gbOutcome_red_none {data : List (Bucket K V)} {cap : Nat} {k : K}
    {h : Nat} (hfi : firstFrom (decB data cap k h) 0 cap = none)
    (hfT : firstFrom (tombP data cap h) 0 cap = none) :
    gbOutcome data cap k h = (none, data) := by
  unfold gbOutcome
  rw [hfi, hfT]

theorem findOutcome_some_elim {data : List (Bucket K V)} {cap : Nat} {k : K}
    {h i : Nat} (hs : findOutcome data cap k h = some i) :
    ∃ t, t < cap ∧ wstop cap h t = i ∧
      matchB k h (stopB data cap h t) = true ∧
      ∀ u, u < t → decB data cap k h u = false := by
  cases hfi : firstFrom (decB data cap k h) 0 cap with
  | none => rw [findOutcome_red_none hfi] at hs; cases hs
  | some t =>
    obtain ⟨_, _, hlt, hmin⟩ := firstFrom_some cap 0 t hfi
    rw [findOutcome_red_some hfi] at hs
    by_cases hmb : matchB k h (stopB data cap h t) = true
    · rw [if_pos hmb, Option.some.injEq] at hs
      exact ⟨t, by omega, hs, hmb, fun u hu => hmin u (by omega) hu⟩
    · rw [if_neg hmb] at hs; cases hs

theorem findOutcome_intro {data : List (Bucket K V)} {cap : Nat} {k : K}
    {h t : Nat} (ht : t < cap)
    (hm : matchB k h (stopB data cap h t) = true)
    (hmin : ∀ u, u < t → decB data cap k h u = false) :
    findOutcome data cap k h = some (wstop cap h t) := by
  have hdec : decB data cap k h t = true :=
    (decB_true_iff data cap k h t).mpr (Or.inr hm)
  have hfi : firstFrom (decB data cap k h) 0 cap = some t :=
    firstFrom_intro cap 0 t hdec (by omega) (by omega)
      fun u _ hu => hmin u hu
  rw [findOutcome_red_some hfi, if_pos hm]

theorem findOutcome_none_of_nomatch {data : List (Bucket K V)} {cap : Nat}
    {k : K} {h : Nat}
    (hno : ∀ t, t < cap → matchB k h (stopB data cap h t) = false) :
    findOutcome data cap k h = none := by
  cases hfi : firstFrom (decB data cap k h) 0 cap with
  | none => exact findOutcome_red_none hfi
  | some t =>
    obtain ⟨_, _, hlt, _⟩ := firstFrom_some cap 0 t hfi
    rw [findOutcome_red_some hfi, if_neg]
    rw [hno t (by omega)]
    simp

theorem gbOutcome_fst_lt {data : List (Bucket K V)} {cap : Nat} {k : K}
    {h i : Nat} (hs : (gbOutcome data cap k h).1 = some i) : i < cap := by
  cases hfi : firstFrom (decB data cap k h) 0 cap with
  | some t =>
    obtain ⟨_, _, hlt, _⟩ := firstFrom_some cap 0 t hfi
    by_cases hmb : matchB k h (stopB data cap h t) = true
    · rw [gbOutcome_red_found hfi hmb] at hs
      simp only [Option.some.injEq] at hs
      exact hs ▸ wstop_lt cap h (by omega) t
    · rw [Bool.not_eq_true] at hmb
      cases hfT : firstFrom (tombP data cap h) 0 t with
      | some u =>
        obtain ⟨_, _, hltu, _⟩ := firstFrom_some t 0 u hfT
        rw [gbOutcome_red_emptyT hfi hmb hfT] at hs
        simp only [Option.some.injEq] at hs
        exact hs ▸ wstop_lt cap h (by omega) u
      | none =>
        rw [gbOutcome_red_emptyE hfi hmb hfT] at hs
        simp only [Option.some.injEq] at hs
        exact hs ▸ wstop_lt cap h (by omega) t
  | none =>
    cases hfT : firstFrom (tombP data cap h) 0 cap with
    | some u =>
      obtain ⟨_, _, hltu, _⟩ := firstFrom_some cap 0 u hfT
      rw [gbOutcome_red_tomb hfi hfT] at hs
      simp only [Option.some.injEq] at hs
      exact hs ▸ wstop_lt cap h (by omega) u
    | none => rw [gbOutcome_red_none hfi hfT] at hs; cases hs

theorem gbOutcome_snd_shape (data : List (Bucket K V)) (cap : Nat) (k : K)
    (h : Nat) : (gbOutcome data cap k h).2 = data ∨
    ∃ j, (gbOutcome data cap k h).1 = some j ∧
      (data.getD j default).state ≠ .occupied ∧
      (gbOutcome data cap k h).2 = setHashAt data j h := by
  cases hfi : firstFrom (decB data cap k h) 0 cap with
  | some t =>
    by_cases hmb : matchB k h (stopB data cap h t) = true
    · rw [gbOutcome_red_found hfi hmb]; left; rfl
    · rw [Bool.not_eq_true] at hmb
      obtain ⟨hp, _, _, _⟩ := firstFrom_some cap 0 t hfi
      cases hfT : firstFrom (tombP data cap h) 0 t with
      | some u =>
        obtain ⟨hpu, _, _, _⟩ := firstFrom_some t 0 u hfT
        rw [gbOutcome_red_emptyT hfi hmb hfT]
        right
        refine ⟨wstop cap h u, rfl, ?_, rfl⟩
        have := (tombP_true_iff data cap h u).mp hpu
        rw [stopB] at this
        rw [this]
        decide
      | none =>
        rw [gbOutcome_red_emptyE hfi hmb hfT]
        right
        refine ⟨wstop cap h t, rfl, ?_, rfl⟩
        have hd := (decB_true_iff data cap k h t).mp hp
        rcases hd with hd | hd
        · rw [stopB] at hd; rw [hd]; decide
        · rw [hd] at hmb; cases hmb
  | none =>
    cases hfT : firstFrom (tombP data cap h) 0 cap with
    | some u =>
      obtain ⟨hpu, _, _, _⟩ := firstFrom_some cap 0 u hfT
      rw [gbOutcome_red_tomb hfi hfT]
      right
      refine ⟨wstop cap h u, rfl, ?_, rfl⟩
      have := (tombP_true_iff data cap h u).mp hpu
      rw [stopB] at this
      rw [this]
      decide
    | none => rw [gbOutcome_red_none hfi hfT]; left; rfl

theorem gbOutcome_snd_length (data : List (Bucket K V)) (cap : Nat) (k : K)
    (h : Nat) : (gbOutcome data cap k h).2.length = data.length := by
  rcases gbOutcome_snd_shape data cap k h with hd | ⟨j, _, _, hd⟩
  · rw [hd]
  · rw [hd, setHashAt, List.length_set]

theorem gbOutcome_snd_state (data : List (Bucket K V)) (cap : Nat) (k : K)
    (h : Nat) (j : Nat) :
    ((gbOutcome data cap k h).2.getD j default).state =
      (data.getD j default).state := by
  rcases gbOutcome_snd_shape data cap k h with hd | ⟨i, _, _, hd⟩
  · rw [hd]
  · rw [hd, setHashAt]
    by_cases hij : i = j
    · subst hij
      by_cases hlen : i < data.length
      · rw [getD_set_same _ _ _ _ hlen]
      · rw [List.set_eq_of_length_le (by omega)]
    · rw [getD_set_other _ _ _ _ _ hij]

theorem gbOutcome_found {data : List (Bucket K V)} {cap : Nat} {k : K}
    {h i : Nat} (hs : (gbOutcome data cap k h).1 = some i)
    (hocc : (data.getD i default).state = .occupied) :
    (gbOutcome data cap k h).2 = data ∧
      matchB k h (data.getD i default) = true ∧
      findOutcome data cap k h = some i := by
  cases hfi : firstFrom (decB data cap k h) 0 cap with
  | some t =>
    by_cases hmb : matchB k h (stopB data cap h t) = true
    · rw [gbOutcome_red_found hfi hmb] at hs ⊢
      simp only [Option.some.injEq] at hs
      subst hs
      refine ⟨rfl, hmb, ?_⟩
      rw [findOutcome_red_some hfi, if_pos hmb]
    · rw [Bool.not_eq_true] at hmb
      obtain ⟨hp, _, _, _⟩ := firstFrom_some cap 0 t hfi
      cases hfT : firstFrom (tombP data cap h) 0 t with
      | some u =>
        obtain ⟨hpu, _, _, _⟩ := firstFrom_some t 0 u hfT
        rw [gbOutcome_red_emptyT hfi hmb hfT] at hs
        simp only [Option.some.injEq] at hs
        have := (tombP_true_iff data cap h u).mp hpu
        rw [stopB, hs] at this
        rw [this] at hocc
        cases hocc
      | none =>
        rw [gbOutcome_red_emptyE hfi hmb hfT] at hs
        simp only [Option.some.injEq] at hs
        have hd := (decB_true_iff data cap k h t).mp hp
        rcases hd with hd | hd
        · rw [stopB, hs] at hd
          rw [hd] at hocc
          cases hocc
        · rw [hd] at hmb; cases hmb
  | none =>
    cases hfT : firstFrom (tombP data cap h) 0 cap with
    | some u =>
      obtain ⟨hpu, _, _, _⟩ := firstFrom_some cap 0 u hfT
      rw [gbOutcome_red_tomb hfi hfT] at hs
      simp only [Option.some.injEq] at hs
      have := (tombP_true_iff data cap h u).mp hpu
      rw [stopB, hs] at this
      rw [this] at hocc
      cases hocc
    | none => rw [gbOutcome_red_none hfi hfT] at hs; cases hs

theorem gbOutcome_fresh {data : List (Bucket K V)} {cap : Nat} {k : K}
    {h i : Nat} (hs : (gbOutcome data cap k h).1 = some i)
    (hnocc : (data.getD i default).state ≠ .occupied) :
    (gbOutcome data cap k h).2 = setHashAt data i h ∧
      ∃ τ, τ < cap ∧ wstop cap h τ = i ∧
        ∀ u, u < τ → (stopB data cap h u).state = .occupied ∧
          matchB k h (stopB data cap h u) = false := by
  cases hfi : firstFrom (decB data cap k h) 0 cap with
  | some t =>
    obtain ⟨hp, _, hlt, hmin⟩ := firstFrom_some cap 0 t hfi
    by_cases hmb : matchB k h (stopB data cap h t) = true
    · rw [gbOutcome_red_found hfi hmb] at hs
      simp only [Option.some.injEq] at hs
      have := (matchB_true_iff k h _).mp hmb
      rw [stopB, hs] at this
      exact absurd this.1 hnocc
    · rw [Bool.not_eq_true] at hmb
      cases hfT : firstFrom (tombP data cap h) 0 t with
      | some u =>
        obtain ⟨hpu, _, hltu, hminu⟩ := firstFrom_some t 0 u hfT
        rw [gbOutcome_red_emptyT hfi hmb hfT] at hs ⊢
        simp only [Option.some.injEq] at hs
        rw [hs]
        refine ⟨rfl, u, by omega, hs, fun u1 hu1 => ?_⟩
        have hd := hmin u1 (by omega) (by omega)
        have hnt := hminu u1 (by omega) hu1
        obtain ⟨hne, hnm⟩ := (decB_false_iff data cap k h u1).mp hd
        have hnt2 := (tombP_false_iff data cap h u1).mp hnt
        refine ⟨?_, hnm⟩
        cases hst : (stopB data cap h u1).state with
        | empty => exact absurd hst hne
        | tombstone => exact absurd hst hnt2
        | occupied => rfl
      | none =>
        rw [gbOutcome_red_emptyE hfi hmb hfT] at hs ⊢
        simp only [Option.some.injEq] at hs
        rw [hs]
        refine ⟨rfl, t, by omega, hs, fun u1 hu1 => ?_⟩
        have hd := hmin u1 (by omega) (by omega)
        have hnt := firstFrom_none t 0 hfT u1 (by omega) (by omega)
        obtain ⟨hne, hnm⟩ := (decB_false_iff data cap k h u1).mp hd
        have hnt2 := (tombP_false_iff data cap h u1).mp hnt
        refine ⟨?_, hnm⟩
        cases hst : (stopB data cap h u1).state with
        | empty => exact absurd hst hne
        | tombstone => exact absurd hst hnt2
        | occupied => rfl
  | none =>
    cases hfT : firstFrom (tombP data cap h) 0 cap with
    | some u =>
      obtain ⟨hpu, _, hltu, hminu⟩ := firstFrom_some cap 0 u hfT
      rw [gbOutcome_red_tomb hfi hfT] at hs ⊢
      simp only [Option.some.injEq] at hs
      rw [hs]
      refine ⟨rfl, u, by omega, hs, fun u1 hu1 => ?_⟩
      have hd := firstFrom_none cap 0 hfi u1 (by omega) (by omega)
      have hnt := hminu u1 (by omega) hu1
      obtain ⟨hne, hnm⟩ := (decB_false_iff data cap k h u1).mp hd
      have hnt2 := (tombP_false_iff data cap h u1).mp hnt
      refine ⟨?_, hnm⟩
      cases hst : (stopB data cap h u1).state with
      | empty => exact absurd hst hne
      | tombstone => exact absurd hst hnt2
      | occupied => rfl
    | none => rw [gbOutcome_red_none hfi hfT] at hs; cases hs

/-! Effects of single-slot writes on the find outcome. -/

theorem findOutcome_insert {data : List (Bucket K V)} {cap : Nat} {k : K}
    {h i τ : Nat} (v : V) (hlen : data.length = cap) (hτ : τ < cap)
    (hw : wstop cap h τ = i)
    (hbefore : ∀ u, u < τ → (stopB data cap h u).state = .occupied ∧
      matchB k h (stopB data cap h u) = false)
    (hnocc : (data.getD i default).state ≠ .occupied) :
    findOutcome (data.set i ⟨.occupied, h, k, v⟩) cap k h = some i := by
  have hi : i < data.length := by rw [hlen, ← hw]; exact wstop_lt cap h (by omega) τ
  have hlen2 : (data.set i (⟨.occupied, h, k, v⟩ : Bucket K V)).length = cap := by
    rw [List.length_set, hlen]
  have hstop2 : stopB (data.set i ⟨.occupied, h, k, v⟩) cap h τ =
      ⟨.occupied, h, k, v⟩ := by
    rw [stopB, hw, getD_set_same _ _ _ _ hi]
  have hm2 : matchB k h (stopB (data.set i ⟨.occupied, h, k, v⟩) cap h τ) = true := by
    rw [hstop2, matchB_true_iff]
    exact ⟨rfl, rfl, rfl⟩
  have hmin2 : ∀ u, u < τ →
      decB (data.set i ⟨.occupied, h, k, v⟩) cap k h u = false := by
    intro u hu
    have hne : i ≠ wstop cap h u := by
      intro heq
      have := (hbefore u hu).1
      rw [stopB, ← heq] at this
      exact hnocc this
    have hsame : stopB (data.set i ⟨.occupied, h, k, v⟩) cap h u =
        stopB data cap h u := by
      rw [stopB, stopB, getD_set_other _ _ _ _ _ hne]
    rw [decB_false_iff, hsame]
    refine ⟨?_, (hbefore u hu).2⟩
    rw [(hbefore u hu).1]
    decide
  have := findOutcome_intro hτ hm2 hmin2
  rw [hw] at this
  exact this

theorem findOutcome_set_other {data : List (Bucket K V)} {cap : Nat} {k : K}
    {h i j : Nat} {b2 : Bucket K V} (hlen : data.length = cap)
    (hfo : findOutcome data cap k h = some i)
    (hjnocc : (data.getD j default).state ≠ .occupied)
    (hocc2 : b2.state = .occupied) (hkey : ¬(b2.key = k)) :
    findOutcome (data.set j b2) cap k h = some i ∧ i ≠ j := by
  obtain ⟨t, ht, hw, hm, hmin⟩ := findOutcome_some_elim hfo
  obtain ⟨hso, hsh, hsk⟩ := (matchB_true_iff k h _).mp hm
  have hij : i ≠ j := by
    intro heq
    rw [stopB, hw, heq] at hso
    exact hjnocc hso
  refine ⟨?_, hij⟩
  have hjw : j ≠ wstop cap h t := by rw [hw]; omega
  have hstop2 : stopB (data.set j b2) cap h t = stopB data cap h t := by
    rw [stopB, stopB, getD_set_other _ _ _ _ _ hjw]
  have hm2 : matchB k h (stopB (data.set j b2) cap h t) = true := by
    rw [hstop2]; exact hm
  have hmin2 : ∀ u, u < t → decB (data.set j b2) cap k h u = false := by
    intro u hu
    by_cases hju : j = wstop cap h u
    · have hjlen : j < data.length := by
        rw [hju, hlen]
        exact wstop_lt cap h (by omega) u
      have hju2 : stopB (data.set j b2) cap h u = b2 := by
        rw [stopB, ← hju, getD_set_same _ _ _ _ hjlen]
      rw [decB_false_iff, hju2]
      refine ⟨by rw [hocc2]; decide,
        (matchB_false_iff k h b2).mpr fun hc => hkey hc.2.2⟩
    · have : stopB (data.set j b2) cap h u = stopB data cap h u := by
        rw [stopB, stopB, getD_set_other _ _ _ _ _ hju]
      rw [decB_false_iff, this]
      exact (decB_false_iff data cap k h u).mp (hmin u hu)
  have := findOutcome_intro ht hm2 hmin2
  rw [hw] at this
  exact this

theorem findOutcome_set_value {data : List (Bucket K V)} {cap : Nat} {k : K}
    {h i : Nat} (v : V) (hlen : data.length = cap)
    (hfo : findOutcome data cap k h = some i) :
    findOutcome (data.set i { data.getD i default with value := v }) cap k h
      = some i := by
  obtain ⟨t, ht, hw, hm, hmin⟩ := findOutcome_some_elim hfo
  obtain ⟨hso, hsh, hsk⟩ := (matchB_true_iff k h _).mp hm
  have hi : i < data.length := by rw [hlen, ← hw]; exact wstop_lt cap h (by omega) t
  have hstop2 : stopB (data.set i { data.getD i default with value := v }) cap h t
      = { data.getD i default with value := v } := by
    rw [stopB, hw, getD_set_same _ _ _ _ hi]
  have hm2 : matchB k h
      (stopB (data.set i { data.getD i default with value := v }) cap h t)
      = true := by
    rw [hstop2, matchB_true_iff]
    rw [stopB, hw] at hso hsh hsk
    exact ⟨hso, hsh, hsk⟩
  have hmin2 : ∀ u, u < t →
      decB (data.set i { data.getD i default with value := v }) cap k h u
        = false := by
    intro u hu
    by_cases hiu : i = wstop cap h u
    · exfalso
      have hdu : decB data cap k h u = true := by
        rw [decB_true_iff]
        right
        rw [matchB_true_iff]
        have : stopB data cap h u = stopB data cap h t := by
          rw [stopB, stopB, ← hiu, hw]
        rw [this]
        exact ⟨hso, hsh, hsk⟩
      rw [hmin u hu] at hdu
      cases hdu
    · have : stopB (data.set i { data.getD i default with value := v }) cap h u
          = stopB data cap h u := by
        rw [stopB, stopB, getD_set_other _ _ _ _ _ hiu]
      rw [decB_false_iff, this]
      exact (decB_false_iff data cap k h u).mp (hmin u hu)
  have := findOutcome_intro ht hm2 hmin2
  rw [hw] at this
  exact this

/-! Characterization of `find` and `add_with_hash` at the table level. -/

theorem findIdx_eq_outcome (hf : K → Nat) (m : Hashmap K V) (k : K)
    (hsz : m.size ≠ 0) :
    findIdx hf m k = findOutcome m.data m.capacity k (hf k) := by
  rw [findIdx, if_neg hsz, findRaw_eq_outcome]

theorem findIdx_some_elim {hf : K → Nat} {m : Hashmap K V} {k : K} {i : Nat}
    (hs : findIdx hf m k = some i) :
    m.size ≠ 0 ∧ i < m.capacity ∧
      (m.data.getD i default).state = .occupied ∧
      (m.data.getD i default).hash = hf k ∧
      (m.data.getD i default).key = k := by
  by_cases hsz : m.size = 0
  · rw [findIdx, if_pos hsz] at hs; cases hs
  · rw [findIdx_eq_outcome hf m k hsz] at hs
    obtain ⟨t, ht, hw, hm, _⟩ := findOutcome_some_elim hs
    obtain ⟨h1, h2, h3⟩ := (matchB_true_iff _ _ _).mp hm
    rw [stopB, hw] at h1 h2 h3
    refine ⟨hsz, ?_, h1, h2, h3⟩
    rw [← hw]
    exact wstop_lt m.capacity (hf k) (by omega) t

theorem addWH_unfold (hf : K → Nat) (f : Nat) (m : Hashmap K V) (k : K)
    (v : V) (h : Nat) :
    addWH hf (f + 1) m k v h =
      (match getBucket hf (addStep hf f m).data (addStep hf f m).capacity k
          (resolveHash hf k h) with
       | (none, _, d2) => ({ addStep hf f m with data := d2 }, none)
       | (some i, _, d2) =>
         if (d2.getD i default).state = .occupied then
           ({ addStep hf f m with
              data := d2.set i { d2.getD i default with value := v } }, some i)
         else
           ({ data := d2.set i ⟨.occupied, resolveHash hf k h, k, v⟩,
              size := (addStep hf f m).size + 1 }, some i)) := by
  simp only [addWH, addStep, growF]

theorem addWH_none_eq {hf : K → Nat} {f : Nat} {m : Hashmap K V} {k : K}
    {v : V} {h : Nat}
    (hnone : (gbOutcome (addStep hf f m).data (addStep hf f m).capacity k
      (resolveHash hf k h)).1 = none) :
    addWH hf (f + 1) m k v h =
      ({ addStep hf f m with
         data := (gbOutcome (addStep hf f m).data (addStep hf f m).capacity k
           (resolveHash hf k h)).2 }, none) := by
  rw [addWH_unfold, getBucket_eq_outcome, resolveHash_idem]
  simp only [hnone]

theorem addWH_found_eq {hf : K → Nat} {f : Nat} {m : Hashmap K V} {k : K}
    {v : V} {h i : Nat}
    (hsome : (gbOutcome (addStep hf f m).data (addStep hf f m).capacity k
      (resolveHash hf k h)).1 = some i)
    (hocc : ((addStep hf f m).data.getD i default).state = .occupied) :
    addWH hf (f + 1) m k v h =
      ({ addStep hf f m with
         data := (addStep hf f m).data.set i
           { (addStep hf f m).data.getD i default with value := v } },
        some i) := by
  obtain ⟨hshape, _, _⟩ := gbOutcome_found hsome hocc
  rw [addWH_unfold, getBucket_eq_outcome, resolveHash_idem]
  simp only [hsome, hshape]
  rw [if_pos hocc]

theorem addWH_fresh_eq {hf : K → Nat} {f : Nat} {m : Hashmap K V} {k : K}
    {v : V} {h i : Nat}
    (hsome : (gbOutcome (addStep hf f m).data (addStep hf f m).capacity k
      (resolveHash hf k h)).1 = some i)
    (hnocc : ((addStep hf f m).data.getD i default).state ≠ .occupied) :
    addWH hf (f + 1) m k v h =
      ({ data := (addStep hf f m).data.set i
           ⟨.occupied, resolveHash hf k h, k, v⟩,
         size := (addStep hf f m).size + 1 }, some i) := by
  obtain ⟨hshape, _⟩ := gbOutcome_fresh hsome hnocc
  have hstate := gbOutcome_snd_state (addStep hf f m).data
    (addStep hf f m).capacity k (resolveHash hf k h) i
  rw [addWH_unfold, getBucket_eq_outcome, resolveHash_idem]
  simp only [hsome]
  rw [if_neg (by rw [hstate]; exact hnocc)]
  rw [hshape, setHashAt, List.set_set]

/-! Structural facts about add/grow/reserve, by induction on fuel. -/

theorem mkReserved_capacity (r : Nat) : (mkReserved K V r).capacity = r := by
  simp [mkReserved, Hashmap.capacity]

theorem mkReserved_sizeOk (r : Nat) : sizeOk (mkReserved K V r) := by
  simp [mkReserved, sizeOk, occCount_replicate_zero]

theorem occCount_gbOutcome_snd (data : List (Bucket K V)) (cap : Nat) (k : K)
    (h : Nat) : occCount ((gbOutcome data cap k h).2) = occCount data := by
  rcases gbOutcome_snd_shape data cap k h with hd | ⟨j, _, _, hd⟩
  · rw [hd]
  · rw [hd, setHashAt]
    exact occCount_set_state_eq _ _ _ rfl

theorem fuel_package (hf : K → Nat) : ∀ f : Nat,
    (∀ (m : Hashmap K V) (k : K) (v : V) (h : Nat),
      m.capacity ≤ (addWH hf f m k v h).1.capacity ∧
      (sizeOk m → sizeOk (addWH hf f m k v h).1 ∧
        (addWH hf f m k v h).1.size ≤ m.size + 1)) ∧
    (∀ (acc : Hashmap K V) (bs : List (Bucket K V)),
      acc.capacity ≤ (reinsertAll hf f acc bs).capacity ∧
      (sizeOk acc → sizeOk (reinsertAll hf f acc bs) ∧
        (reinsertAll hf f acc bs).size ≤ acc.size + occCount bs)) ∧
    (∀ m : Hashmap K V,
      (if m.capacity = 0 then 64 else 2 * m.capacity) ≤ (growF hf f m).capacity ∧
      sizeOk (growF hf f m) ∧ (growF hf f m).size ≤ occCount m.data) := by
  intro f
  induction f using Nat.strong_induction_on with
  | _ f ih =>
    have haddP : ∀ (m : Hashmap K V) (k : K) (v : V) (h : Nat),
        m.capacity ≤ (addWH hf f m k v h).1.capacity ∧
        (sizeOk m → sizeOk (addWH hf f m k v h).1 ∧
          (addWH hf f m k v h).1.size ≤ m.size + 1) := by
      intro m k v h
      cases f with
      | zero =>
        simp only [addWH]
        exact ⟨Nat.le_refl _, fun hs => ⟨hs, by omega⟩⟩
      | succ g =>
        have growIH := (ih g (by omega)).2.2
        have hcap1 : m.capacity ≤ (addStep hf g m).capacity := by
          unfold addStep
          by_cases hg : growCheckB m
          · rw [if_pos hg]
            have := (growIH m).1
            by_cases h0 : m.capacity = 0
            · omega
            · rw [if_neg h0] at this; omega
          · rw [if_neg hg]
        have hsz1 : sizeOk m → sizeOk (addStep hf g m) ∧
            (addStep hf g m).size ≤ m.size := by
          intro hs
          unfold addStep
          by_cases hg : growCheckB m
          · rw [if_pos hg]
            exact ⟨(growIH m).2.1, by rw [hs]; exact (growIH m).2.2⟩
          · rw [if_neg hg]
            exact ⟨hs, Nat.le_refl _⟩
        have hm1len : (addStep hf g m).capacity = (addStep hf g m).data.length := rfl
        cases hgb : (gbOutcome (addStep hf g m).data (addStep hf g m).capacity
            k (resolveHash hf k h)).1 with
        | none =>
          rw [addWH_none_eq hgb]
          have hlen := gbOutcome_snd_length (addStep hf g m).data
            (addStep hf g m).capacity k (resolveHash hf k h)
          have hocc2 := occCount_gbOutcome_snd (addStep hf g m).data
            (addStep hf g m).capacity k (resolveHash hf k h)
          refine ⟨?_, fun hs => ?_⟩
          · show m.capacity ≤ ((gbOutcome (addStep hf g m).data
              (addStep hf g m).capacity k (resolveHash hf k h)).2).length
            omega
          · obtain ⟨hs1, hs2⟩ := hsz1 hs
            rw [sizeOk] at hs1
            refine ⟨?_, ?_⟩
            · show (addStep hf g m).size = occCount ((gbOutcome
                (addStep hf g m).data (addStep hf g m).capacity k
                (resolveHash hf k h)).2)
              omega
            · show (addStep hf g m).size ≤ m.size + 1
              omega
        | some i =>
          by_cases hoccb : ((addStep hf g m).data.getD i default).state = .occupied
          · rw [addWH_found_eq hgb hoccb]
            refine ⟨?_, fun hs => ?_⟩
            · show m.capacity ≤ ((addStep hf g m).data.set i _).length
              rw [List.length_set]
              omega
            · obtain ⟨hs1, hs2⟩ := hsz1 hs
              rw [sizeOk] at hs1
              have hcnt := occCount_set_state_eq (addStep hf g m).data i
                { (addStep hf g m).data.getD i default with value := v } rfl
              refine ⟨?_, ?_⟩
              · show (addStep hf g m).size = occCount ((addStep hf g m).data.set i
                  { (addStep hf g m).data.getD i default with value := v })
                omega
              · show (addStep hf g m).size ≤ m.size + 1
                omega
          · rw [addWH_fresh_eq hgb hoccb]
            have hilt : i < (addStep hf g m).data.length := by
              have := gbOutcome_fst_lt hgb
              omega
            refine ⟨?_, fun hs => ?_⟩
            · show m.capacity ≤ ((addStep hf g m).data.set i _).length
              rw [List.length_set]
              omega
            · obtain ⟨hs1, hs2⟩ := hsz1 hs
              rw [sizeOk] at hs1
              have hcnt := occCount_set (addStep hf g m).data i
                ⟨.occupied, resolveHash hf k h, k, v⟩ hilt
              rw [if_neg hoccb, if_pos rfl] at hcnt
              refine ⟨?_, ?_⟩
              · show (addStep hf g m).size + 1 = occCount ((addStep hf g m).data.set i
                  ⟨.occupied, resolveHash hf k h, k, v⟩)
                omega
              · show (addStep hf g m).size + 1 ≤ m.size + 1
                omega
    have hreinsP : ∀ (acc : Hashmap K V) (bs : List (Bucket K V)),
        acc.capacity ≤ (reinsertAll hf f acc bs).capacity ∧
        (sizeOk acc → sizeOk (reinsertAll hf f acc bs) ∧
          (reinsertAll hf f acc bs).size ≤ acc.size + occCount bs) := by
      intro acc bs
      induction bs generalizing acc with
      | nil =>
        rw [reinsertAll_nil]
        exact ⟨Nat.le_refl _, fun hs => ⟨hs, by rw [occCount_nil]; omega⟩⟩
      | cons b rest ihb =>
        by_cases hb : b.state = .occupied
        · rw [reinsertAll_cons, if_pos hb]
          have ha := haddP acc b.key b.value b.hash
          have hr := ihb (addWH hf f acc b.key b.value b.hash).1
          refine ⟨Nat.le_trans ha.1 hr.1, fun hs => ?_⟩
          obtain ⟨ha1, ha2⟩ := ha.2 hs
          obtain ⟨hr1, hr2⟩ := hr.2 ha1
          refine ⟨hr1, ?_⟩
          rw [occCount_cons, if_pos hb]
          omega
        · rw [reinsertAll_cons, if_neg hb]
          have hr := ihb acc
          refine ⟨hr.1, fun hs => ?_⟩
          obtain ⟨hr1, hr2⟩ := hr.2 hs
          refine ⟨hr1, ?_⟩
          rw [occCount_cons, if_neg hb]
          omega
    have hgrowP : ∀ m : Hashmap K V,
        (if m.capacity = 0 then 64 else 2 * m.capacity) ≤
          (growF hf f m).capacity ∧
        sizeOk (growF hf f m) ∧ (growF hf f m).size ≤ occCount m.data := by
      intro m
      have ht : m.capacity < (if m.capacity = 0 then 64 else 2 * m.capacity) := by
        split <;> omega
      rw [growF_eq, reserveF_eq, if_pos ht]
      have hre := hreinsP (mkReserved K V
        (if m.capacity = 0 then 64 else 2 * m.capacity)) m.data
      obtain ⟨hrs1, hrs2⟩ := hre.2 (mkReserved_sizeOk _)
      refine ⟨?_, hrs1, ?_⟩
      · have := hre.1
        rw [mkReserved_capacity] at this
        exact this
      · have hz : (mkReserved K V
          (if m.capacity = 0 then 64 else 2 * m.capacity)).size = 0 := rfl
        omega
    exact ⟨haddP, hreinsP, hgrowP⟩

theorem addWH_capacity_le (hf : K → Nat) (f : Nat) (m : Hashmap K V) (k : K)
    (v : V) (h : Nat) : m.capacity ≤ (addWH hf f m k v h).1.capacity :=
  ((fuel_package hf f).1 m k v h).1

theorem addWH_sizeOk (hf : K → Nat) (f : Nat) (m : Hashmap K V) (k : K)
    (v : V) (h : Nat) (hs : sizeOk m) : sizeOk (addWH hf f m k v h).1 :=
  (((fuel_package hf f).1 m k v h).2 hs).1

theorem growF_capacity_ge (hf : K → Nat) (f : Nat) (m : Hashmap K V) :
    (if m.capacity = 0 then 64 else 2 * m.capacity) ≤ (growF hf f m).capacity :=
  ((fuel_package hf f).2.2 m).1

theorem growF_sizeOk (hf : K → Nat) (f : Nat) (m : Hashmap K V) :
    sizeOk (growF hf f m) :=
  ((fuel_package hf f).2.2 m).2.1

theorem growF_size_le (hf : K → Nat) (f : Nat) (m : Hashmap K V) :
    (growF hf f m).size ≤ occCount m.data :=
  ((fuel_package hf f).2.2 m).2.2

/-! The main inductive argument about the re-insertion loop of `reserve`:
when every re-insertion finds a slot (`reinsertOKB`), the loop preserves
sizes and keeps every key findable. -/

theorem reinsert_master (hf : K → Nat) (f r : Nat) :
    ∀ (bs : List (Bucket K V)) (acc : Hashmap K V),
    acc.capacity = r →
    sizeOk acc →
    selfFind hf acc →
    (∀ b ∈ bs, b.state = .occupied → ∀ j, j < acc.data.length →
      (acc.data.getD j default).state = .occupied →
      (acc.data.getD j default).key ≠ b.key) →
    bs.Pairwise (fun a b => a.state = .occupied → b.state = .occupied →
      a.key ≠ b.key) →
    (∀ b ∈ bs, b.state = .occupied → b.hash = hf b.key) →
    4 * (acc.size + occCount bs + 1) ≤ 3 * r →
    reinsertOKB hf f acc bs = true →
    (reinsertAll hf f acc bs).capacity = r ∧
    (reinsertAll hf f acc bs).size = acc.size + occCount bs ∧
    sizeOk (reinsertAll hf f acc bs) ∧
    selfFind hf (reinsertAll hf f acc bs) ∧
    (∀ i, i < acc.data.length → (acc.data.getD i default).state = .occupied →
      (reinsertAll hf f acc bs).data.getD i default = acc.data.getD i default) ∧
    (∀ b ∈ bs, b.state = .occupied → ∃ j, j < r ∧
      (reinsertAll hf f acc bs).data.getD j default =
        ⟨.occupied, hf b.key, b.key, b.value⟩) := by
  intro bs
  induction bs with
  | nil =>
    intro acc hcap hsz hsf hdisj hpw hhc hload hok
    rw [reinsertAll_nil]
    refine ⟨hcap, ?_, hsz, hsf, fun i _ _ => rfl, ?_⟩
    · rw [occCount_nil]
      omega
    · intro b2 hb2
      exact absurd hb2 (List.not_mem_nil b2)
  | cons b rest ihb =>
    intro acc hcap hsz hsf hdisj hpw hhc hload hok
    have hlenr : acc.data.length = r := hcap
    by_cases hb : b.state = .occupied
    · -- re-insert b, then recurse
      rw [occCount_cons, if_pos hb] at hload
      rw [reinsertOKB, if_pos hb, Bool.and_eq_true] at hok
      obtain ⟨hok1, hok2⟩ := hok
      cases f with
      | zero => rw [addWH] at hok1; simp at hok1
      | succ g =>
        have hgc : growCheckB acc = false := by
          simp only [growCheckB, hcap, decide_eq_false_iff_not]
          omega
        have hstep : addStep hf g acc = acc := by
          rw [addStep, hgc]
          simp
        have hkh : resolveHash hf b.key b.hash = hf b.key := by
          rw [resolveHash]
          split
          · rfl
          · rw [hhc b (List.mem_cons_self b rest) hb]
        cases hgb : (gbOutcome (addStep hf g acc).data
            (addStep hf g acc).capacity b.key
            (resolveHash hf b.key b.hash)).1 with
        | none =>
          rw [addWH_none_eq hgb] at hok1
          simp at hok1
        | some i =>
          have hilt : i < r := by
            have := gbOutcome_fst_lt hgb
            rw [hstep, hcap] at this
            exact this
          by_cases hoccb : ((addStep hf g acc).data.getD i default).state
              = .occupied
          · -- impossible: the located bucket would hold b.key already
            exfalso
            obtain ⟨_, hmB, _⟩ := gbOutcome_found hgb hoccb
            obtain ⟨ho1, _, ho3⟩ := (matchB_true_iff _ _ _).mp hmB
            rw [hstep] at ho1 ho3
            exact hdisj b (List.mem_cons_self b rest) hb i (by omega)
              ho1 ho3
          · -- fresh insertion at slot i
            have haddeq : addWH hf (g + 1) acc b.key b.value b.hash =
                ({ data := acc.data.set i
                     ⟨.occupied, hf b.key, b.key, b.value⟩,
                   size := acc.size + 1 }, some i) := by
              rw [addWH_fresh_eq hgb hoccb, hstep, hkh]
            have haddeq1 : (addWH hf (g + 1) acc b.key b.value b.hash).1 =
                Hashmap.mk (acc.data.set i
                  ⟨.occupied, hf b.key, b.key, b.value⟩) (acc.size + 1) := by
              rw [haddeq]
            obtain ⟨_, τ, hτ, hw, hbef⟩ := gbOutcome_fresh hgb hoccb
            rw [hstep] at hτ hw hbef hoccb
            rw [hkh] at hw hbef
            rw [hcap] at hτ
            have hwr : wstop r (hf b.key) τ = i := by
              rw [← hcap]
              exact hw
            have hbefr : ∀ u, u < τ →
                (stopB acc.data r (hf b.key) u).state = .occupied ∧
                matchB b.key (hf b.key) (stopB acc.data r (hf b.key) u)
                  = false := by
              rw [← hcap]
              exact hbef
            have hfo_new : findOutcome (acc.data.set i
                ⟨.occupied, hf b.key, b.key, b.value⟩) r b.key (hf b.key)
                = some i :=
              findOutcome_insert b.value hlenr hτ hwr hbefr hoccb
            -- the accumulated table after inserting b
            have hacc'cap : (Hashmap.mk (acc.data.set i
                ⟨.occupied, hf b.key, b.key, b.value⟩) (acc.size + 1)).capacity
                = r := by
              simp only [Hashmap.capacity, List.length_set]
              exact hlenr
            have hacc'sz : sizeOk (Hashmap.mk (acc.data.set i
                ⟨.occupied, hf b.key, b.key, b.value⟩) (acc.size + 1)) := by
              have hcnt := occCount_set acc.data i
                ⟨.occupied, hf b.key, b.key, b.value⟩ (by omega)
              rw [if_neg hoccb, if_pos rfl] at hcnt
              rw [sizeOk] at hsz ⊢
              simp only at hcnt ⊢
              omega
            have hacc'sf : selfFind hf (Hashmap.mk (acc.data.set i
                ⟨.occupied, hf b.key, b.key, b.value⟩) (acc.size + 1)) := by
              intro i2 hi2 hocc2
              simp only [List.length_set] at hi2
              by_cases hii : i2 = i
              · subst hii
                have hgd : ((acc.data.set i2
                    ⟨.occupied, hf b.key, b.key, b.value⟩).getD i2 default)
                    = ⟨.occupied, hf b.key, b.key, b.value⟩ :=
                  getD_set_same _ _ _ _ (by omega)
                rw [findIdx_eq_outcome _ _ _ (by simp)]
                simp only [hgd]
                simp only [Hashmap.capacity, List.length_set, hlenr]
                exact hfo_new
              · have hgd : ((acc.data.set i
                    ⟨.occupied, hf b.key, b.key, b.value⟩).getD i2 default)
                    = acc.data.getD i2 default :=
                  getD_set_other _ _ _ _ _ (fun he => hii (by omega))
                rw [hgd] at hocc2 ⊢
                have hszpos : acc.size ≠ 0 := by
                  have := occCount_pos_of_occupied acc.data i2 (by omega) hocc2
                  rw [sizeOk] at hsz
                  omega
                have hold := hsf i2 (by omega) hocc2
                rw [findIdx_eq_outcome _ _ _ hszpos] at hold
                rw [hcap] at hold
                have hkne : ¬((⟨.occupied, hf b.key, b.key, b.value⟩ :
                    Bucket K V).key = (acc.data.getD i2 default).key) := by
                  intro he
                  exact hdisj b (List.mem_cons_self b rest) hb i2 (by omega)
                    hocc2 (by rw [← he])
                obtain ⟨hfo2, _⟩ := findOutcome_set_other hlenr hold hoccb
                  (by rfl) hkne
                rw [findIdx_eq_outcome _ _ _ (by simp)]
                simp only [Hashmap.capacity, List.length_set, hlenr]
                exact hfo2
            have hdisj' : ∀ b2 ∈ rest, b2.state = .occupied →
                ∀ j, j < (acc.data.set i
                  ⟨.occupied, hf b.key, b.key, b.value⟩).length →
                ((acc.data.set i
                  ⟨.occupied, hf b.key, b.key, b.value⟩).getD j default).state
                    = .occupied →
                ((acc.data.set i
                  ⟨.occupied, hf b.key, b.key, b.value⟩).getD j default).key
                    ≠ b2.key := by
              intro b2 hb2 hb2occ j hj hjocc
              simp only [List.length_set] at hj
              by_cases hji : j = i
              · subst hji
                rw [getD_set_same _ _ _ _ (by omega)] at hjocc ⊢
                exact (List.pairwise_cons.mp hpw).1 b2 hb2 hb hb2occ
              · rw [getD_set_other _ _ _ _ _ (fun he => hji (by omega))]
                  at hjocc ⊢
                exact hdisj b2 (List.mem_cons_of_mem b hb2) hb2occ j
                  (by omega) hjocc
            have := ihb (Hashmap.mk (acc.data.set i
                ⟨.occupied, hf b.key, b.key, b.value⟩) (acc.size + 1))
              hacc'cap hacc'sz hacc'sf hdisj'
              (List.pairwise_cons.mp hpw).2
              (fun b2 hb2 => hhc b2 (List.mem_cons_of_mem b hb2))
              (by simp only; omega)
              (by rw [haddeq1] at hok2; exact hok2)
            obtain ⟨c1, c2, c3, c4, c5, c6⟩ := this
            rw [reinsertAll_cons, if_pos hb, haddeq1]
            refine ⟨c1, ?_, c3, c4, ?_, ?_⟩
            · rw [occCount_cons, if_pos hb]
              simp only at c2
              omega
            · intro i2 hi2 hocc2
              have hii : i2 ≠ i := by
                intro he
                subst he
                exact hoccb hocc2
              have hgd : ((acc.data.set i
                  ⟨.occupied, hf b.key, b.key, b.value⟩).getD i2 default)
                  = acc.data.getD i2 default :=
                getD_set_other _ _ _ _ _ (fun he => hii (by omega))
              have := c5 i2 (by simp only [List.length_set]; omega)
                (by rw [hgd]; exact hocc2)
              rw [hgd] at this
              exact this
            · intro b2 hb2 hb2occ
              rcases List.mem_cons.mp hb2 with he | hmem
              · subst he
                refine ⟨i, hilt, ?_⟩
                have hgd : ((acc.data.set i
                    ⟨.occupied, hf b2.key, b2.key, b2.value⟩).getD i default)
                    = ⟨.occupied, hf b2.key, b2.key, b2.value⟩ :=
                  getD_set_same _ _ _ _ (by omega)
                have := c5 i (by simp only [List.length_set]; omega)
                  (by rw [hgd])
                rw [hgd] at this
                exact this
              · exact c6 b2 hmem hb2occ
    · -- b is not Occupied: it is skipped
      rw [occCount_cons, if_neg hb] at hload
      rw [reinsertOKB, if_neg hb] at hok
      have := ihb acc hcap hsz hsf
        (fun b2 hb2 => hdisj b2 (List.mem_cons_of_mem b hb2))
        (List.pairwise_cons.mp hpw).2
        (fun b2 hb2 => hhc b2 (List.mem_cons_of_mem b hb2))
        (by omega) hok
      obtain ⟨c1, c2, c3, c4, c5, c6⟩ := this
      rw [reinsertAll_cons, if_neg hb]
      refine ⟨c1, ?_, c3, c4, c5, ?_⟩
      · rw [occCount_cons, if_neg hb]
        omega
      · intro b2 hb2 hb2occ
        rcases List.mem_cons.mp hb2 with he | hmem
        · subst he
          exact absurd hb2occ hb
        · exact c6 b2 hmem hb2occ

/-! Last helpers: a found key makes `get_bucket` take its found branch, and
frame facts about the `_hash`-only write. -/

theorem gbOutcome_of_findOutcome {data : List (Bucket K V)} {cap : Nat}
    {k : K} {h i : Nat} (hfo : findOutcome data cap k h = some i) :
    gbOutcome data cap k h = (some i, data) := by
  cases hfi : firstFrom (decB data cap k h) 0 cap with
  | none => rw [findOutcome_red_none hfi] at hfo; cases hfo
  | some t =>
    rw [findOutcome_red_some hfi] at hfo
    by_cases hmb : matchB k h (stopB data cap h t) = true
    · rw [if_pos hmb, Option.some.injEq] at hfo
      rw [gbOutcome_red_found hfi hmb, hfo]
    · rw [if_neg hmb] at hfo; cases hfo

theorem getD_eq_getElem {α : Type} (l : List α) (i : Nat) (d : α)
    (h : i < l.length) : l.getD i d = l[i] := by
  rw [List.getD_eq_getElem?_getD, List.getElem?_eq_getElem h]
  rfl

theorem setHashAt_getD_frame (data : List (Bucket K V)) (i h j : Nat) :
    ((setHashAt data i h).getD j default).state = (data.getD j default).state ∧
    ((setHashAt data i h).getD j default).key = (data.getD j default).key ∧
    ((setHashAt data i h).getD j default).value = (data.getD j default).value ∧
    (((setHashAt data i h).getD j default).hash = (data.getD j default).hash ∨
      j = i) := by
  rw [setHashAt]
  by_cases hij : i = j
  · subst hij
    by_cases hlen : i < data.length
    · rw [getD_set_same _ _ _ _ hlen]
      exact ⟨rfl, rfl, rfl, Or.inr rfl⟩
    · rw [List.set_eq_of_length_le (by omega)]
      exact ⟨rfl, rfl, rfl, Or.inl rfl⟩
  · rw [getD_set_other _ _ _ _ _ hij]
    exact ⟨rfl, rfl, rfl, Or.inl rfl⟩

theorem getSt_snd_eq (hf : K → Nat) (m : Hashmap K V) (k : K) :
    (getSt hf m k).2 =
      if m.capacity = 0 then m
      else { m with data := (gbOutcome m.data m.capacity k
        (resolveHash hf k sentinel)).2 } := by
  rw [getSt]
  by_cases h0 : m.capacity = 0
  · rw [if_pos h0, if_pos h0]
  · rw [if_neg h0, if_neg h0, getBucket_eq_outcome]
    cases hgb : (gbOutcome m.data m.capacity k
        (resolveHash hf k sentinel)).1 with
    | none => simp only [hgb]
    | some i =>
      simp only [hgb]
      split <;> rfl

theorem findIdx_mk (hf : K → Nat) (data : List (Bucket K V)) (sz : Nat)
    (k : K) (hsz : sz ≠ 0) :
    findIdx hf ⟨data, sz⟩ k = findOutcome data data.length k (hf k) :=
  findIdx_eq_outcome hf ⟨data, sz⟩ k hsz

/-! The claims. -/

/-- C10: on a default-constructed table (capacity 0, null buffer) every
read-only public operation is total and benign: `find` and `get` return the
end result without touching the buffer, `contains` returns false,
`try_get_value` reports not-found, and `remove` returns the end result
leaving `size` and `capacity` at 0. -/
theorem c10_default_table_benign (hf : K → Nat) (k : K) :
    findIdx hf (emptyMap K V) k = none ∧
    getSt hf (emptyMap K V) k = (none, emptyMap K V) ∧
    containsB hf (emptyMap K V) k = false ∧
    tryGetValue (V := V) hf (emptyMap K V) k = none ∧
    removeSt hf (emptyMap K V) k = (emptyMap K V, none) ∧
    (emptyMap K V).size = 0 ∧ (emptyMap K V).capacity = 0 := by
  exact ⟨rfl, rfl, rfl, rfl, rfl, rfl, rfl⟩

/-- C3 counterexample: with capacity 4 and hash 0 the probe step is
`1 + 0 % 3 = 1`, so the claimed constant-step sequence
`(start + k * probe_step) % capacity` visits bucket 2 at probe number 2,
but the loops of the code (which also increment `key_probe` after every
probe) visit bucket 3. -/
theorem c3_counterexample :
    wstop 4 0 2 = 3 ∧ (0 % 4 + 2 * probeStep 4 0) % 4 = 2 ∧ (3 : Nat) ≠ 2 := by
  decide

/-- C3 amended: the index visited at probe number `t` is
`(h % c + (t * probe_step(h) + t*(t-1)/2)) % c`: the per-probe step starts
at `probe_step(h) = 1 + h % (c - 1)` and grows by one after every probe
(`key_probe++`), so the claimed formula must carry the extra triangular
term `t*(t-1)/2`. -/
theorem c3_wstop_closed_form (cap h t : Nat) :
    wstop cap h t =
      (h % cap + (t * probeStep cap h + t * (t - 1) / 2)) % cap := by
  induction t with
  | zero => simp [wstop]
  | succ t ih =>
    rw [wstop, ih, Nat.mod_add_mod]
    have htri : t * (t - 1) / 2 + t = (t + 1) * (t + 1 - 1) / 2 := by
      cases t with
      | zero => rfl
      | succ s =>
        obtain ⟨w, hw⟩ := Nat.even_mul_succ_self s
        have h1 : (s + 1) * (s + 1 - 1) = s * (s + 1) := by
          simp only [Nat.add_sub_cancel]
          ring
        have h2 : (s + 1 + 1) * (s + 1 + 1 - 1) = s * (s + 1) + 2 * (s + 1) := by
          simp only [Nat.add_sub_cancel]
          ring
        omega
    have hp : (t + 1) * probeStep cap h =
        t * probeStep cap h + probeStep cap h := by ring
    congr 1
    omega

/-- C9 counterexample: the public reserved-capacity constructor builds a
capacity-1 table, and `get` on it reaches `probe` (it only guards against
capacity 0), evaluating `hash % (capacity - 1)` with divisor 0 — undefined
behavior in C++. -/
theorem c9_counterexample :
    (mkReserved Nat Nat 1).capacity = 1 ∧
    getProbeDivisor (mkReserved Nat Nat 1) = some 0 ∧
    ¬2 ≤ (mkReserved Nat Nat 1).capacity := by
  decide

/-- C9 amended: `add` never evaluates `probe` with capacity below 2 — the
table `get_bucket` probes after the potential grow always has capacity at
least 2 — but `get` (and `operator[]`) on a capacity-1 table do evaluate
`probe` with divisor `capacity - 1 = 0`. -/
theorem c9_add_never_probes_below_two (hf : K → Nat) (f : Nat)
    (m : Hashmap K V) : 2 ≤ (addStep hf f m).capacity := by
  rw [addStep]
  by_cases hg : growCheckB m
  · rw [if_pos hg]
    have := growF_capacity_ge hf f m
    by_cases h0 : m.capacity = 0
    · rw [if_pos h0] at this; omega
    · rw [if_neg h0] at this; omega
  · rw [if_neg hg]
    simp only [growCheckB, decide_eq_true_eq] at hg
    omega

/-- C5 counterexample: `get` on a fresh capacity-4 table with key 5 (hash 5)
walks to the Empty bucket at index 1 and writes the cached hash 5 into it,
so `get` is not read-only at the bucket level. -/
theorem c5_counterexample :
    ((getSt idHash (mkReserved Nat Nat 4) 5).2.data.getD 1 default).hash = 5 ∧
    ((mkReserved Nat Nat 4).data.getD 1 default).hash = 0 ∧
    (5 : Nat) ≠ 0 := by
  decide

/-- C5 amended: `find` is read-only (its loop performs no write, so it is a
pure function of the table in this embedding), and `get` preserves `size`,
`capacity`, and every bucket's flags, key and value — but it may overwrite
the cached hash of a non-occupied bucket (the slot `get_bucket` returns). -/
theorem c5_get_frame (hf : K → Nat) (m : Hashmap K V) (k : K) :
    (getSt hf m k).2.size = m.size ∧
    (getSt hf m k).2.capacity = m.capacity ∧
    ∀ j, ((getSt hf m k).2.data.getD j default).state =
        (m.data.getD j default).state ∧
      ((getSt hf m k).2.data.getD j default).key =
        (m.data.getD j default).key ∧
      ((getSt hf m k).2.data.getD j default).value =
        (m.data.getD j default).value ∧
      (((getSt hf m k).2.data.getD j default).hash =
          (m.data.getD j default).hash ∨
        (m.data.getD j default).state ≠ .occupied) := by
  rw [getSt_snd_eq]
  by_cases h0 : m.capacity = 0
  · rw [if_pos h0]
    exact ⟨rfl, rfl, fun j => ⟨rfl, rfl, rfl, Or.inl rfl⟩⟩
  · rw [if_neg h0]
    rcases gbOutcome_snd_shape m.data m.capacity k (resolveHash hf k sentinel)
      with hd | ⟨j0, _, hno, hd⟩
    · rw [hd]
      exact ⟨rfl, rfl, fun j => ⟨rfl, rfl, rfl, Or.inl rfl⟩⟩
    · rw [hd]
      refine ⟨rfl, ?_, fun j => ?_⟩
      · show (setHashAt m.data j0 _).length = m.data.length
        rw [setHashAt, List.length_set]
      · obtain ⟨h1, h2, h3, h4⟩ := setHashAt_getD_frame m.data j0
          (resolveHash hf k sentinel) j
        refine ⟨h1, h2, h3, ?_⟩
        rcases h4 with h4 | h4
        · exact Or.inl h4
        · subst h4
          exact Or.inr hno

/-- C2: evaluation at the failing input.  Keys 0, 1, 2 (hash 0 each,
`HashFunc` is a template parameter) are inserted into a default-constructed
hashmap and hashset; every insertion lands in the same slot on both sides
and the sizes agree, but the hashmap finds key 2 while the hashset does not:
`hashset::find` keeps `key_probe` constant (src/hashset.h line 494) although
`hashset::get_bucket` increments it per probe (line 315), so the set's third
colliding key is placed at a slot its own `find` never visits. -/
theorem c2_map_set_divergence :
    mapC2.size = 3 ∧ setC2.size = 3 ∧
    containsB zeroHash mapC2 0 = true ∧ sContainsB zeroHash setC2 0 = true ∧
    containsB zeroHash mapC2 1 = true ∧ sContainsB zeroHash setC2 1 = true ∧
    containsB zeroHash mapC2 2 = true ∧ sContainsB zeroHash setC2 2 = false := by
  decide

/-- C4 counterexample: two `operator[]` insertions into a capacity-2 table
both complete (no null dereference), yet leave size 2 = capacity 2, so
`size <= capacity * 0.75` is violated: `operator[]` (src/hashmap.h lines
591-606) performs no load-factor test — it grows only when capacity is 0. -/
theorem c4_counterexample :
    (mapC4.map fun m2 => decide (4 * m2.size ≤ 3 * m2.capacity))
        = some false ∧
    mapC4.map Hashmap.size = some 2 ∧
    mapC4.map Hashmap.capacity = some 2 := by
  decide

/-- C4 amended: `add`/`add_with_hash` do enforce the bound — on any
size-consistent table whose capacity is not 1, the table returned by `add`
satisfies `size <= capacity * 0.75` (stated as `4*size <= 3*capacity`) —
but `operator[]` does not grow before inserting unless capacity is 0, so
its inserts can violate the bound. -/
theorem c4_add_load_factor_bound (hf : K → Nat) (f : Nat) (m : Hashmap K V)
    (k : K) (v : V) (hs : sizeOk m) (hc1 : m.capacity ≠ 1) :
    4 * (add hf (f + 1) m k v).1.size ≤
      3 * (add hf (f + 1) m k v).1.capacity := by
  have hs2 : m.size = occCount m.data := hs
  have hcl : m.capacity = m.data.length := rfl
  have hoc : occCount m.data ≤ m.data.length := occCount_le_length m.data
  have hkey : 4 * ((addStep hf f m).size + 1) ≤ 3 * (addStep hf f m).capacity := by
    rw [addStep]
    by_cases hg : growCheckB m
    · rw [if_pos hg]
      have hcapge := growF_capacity_ge hf f m
      have hszle := growF_size_le hf f m
      by_cases h0 : m.capacity = 0
      · rw [if_pos h0] at hcapge
        omega
      · rw [if_neg h0] at hcapge
        omega
    · rw [if_neg hg]
      simp only [growCheckB, decide_eq_true_eq] at hg
      omega
  have hcl2 : (addStep hf f m).capacity = (addStep hf f m).data.length := rfl
  have hadd : add hf (f + 1) m k v = addWH hf (f + 1) m k v sentinel := rfl
  rw [hadd]
  cases hgb : (gbOutcome (addStep hf f m).data (addStep hf f m).capacity k
      (resolveHash hf k sentinel)).1 with
  | none =>
    rw [addWH_none_eq hgb]
    have hlen := gbOutcome_snd_length (addStep hf f m).data
      (addStep hf f m).capacity k (resolveHash hf k sentinel)
    show 4 * (addStep hf f m).size ≤
      3 * ((gbOutcome (addStep hf f m).data (addStep hf f m).capacity k
        (resolveHash hf k sentinel)).2.length)
    omega
  | some i =>
    by_cases hocc : ((addStep hf f m).data.getD i default).state = .occupied
    · rw [addWH_found_eq hgb hocc]
      show 4 * (addStep hf f m).size ≤
        3 * (((addStep hf f m).data.set i
          { (addStep hf f m).data.getD i default with value := v }).length)
      rw [List.length_set]
      omega
    · rw [addWH_fresh_eq hgb hocc]
      show 4 * ((addStep hf f m).size + 1) ≤
        3 * (((addStep hf f m).data.set i
          ⟨.occupied, resolveHash hf k sentinel, k, v⟩).length)
      rw [List.length_set]
      omega

theorem c4_add_load_factor_bound_witness :
    sizeOk (mkReserved Nat Nat 4) ∧ (mkReserved Nat Nat 4).capacity ≠ 1 ∧
    4 * (add idHash (0 + 1) (mkReserved Nat Nat 4) 0 5).1.size ≤
      3 * (add idHash (0 + 1) (mkReserved Nat Nat 4) 0 5).1.capacity :=
  ⟨by decide, by decide,
    c4_add_load_factor_bound idHash 0 (mkReserved Nat Nat 4) 0 5
      (by decide) (by decide)⟩

/-- C6: on any size-consistent table, `find` agrees with the lookup
contract of the spec: it walks the probe-stop sequence, fails at the first
Empty stop, passes over Tombstone and non-matching Occupied stops, returns
a match, and makes at most `capacity` probes before failing
(`findSpecModel` is modelled from the spec; the `size == 0` early end of
the code coincides with it because a size-0 consistent table has no
Occupied bucket). -/
theorem c6_find_follows_spec (hf : K → Nat) (m : Hashmap K V) (k : K)
    (hs : sizeOk m) : findIdx hf m k = findSpecModel hf m k := by
  have hspec : findSpecModel hf m k =
      findOutcome m.data m.capacity k (hf k) := rfl
  by_cases hsz : m.size = 0
  · rw [findIdx, if_pos hsz, hspec]
    symm
    apply findOutcome_none_of_nomatch
    intro t ht
    rw [matchB_false_iff]
    rintro ⟨hc1, -, -⟩
    have hocc0 : occCount m.data = 0 := by
      have hs2 : m.size = occCount m.data := hs
      omega
    have hc1' : (m.data.getD (wstop m.capacity (hf k) t) default).state
        = .occupied := hc1
    rcases getD_mem_or_default m.data (wstop m.capacity (hf k) t) default
      with hmem | hdef
    · rw [occCount, List.countP_eq_zero] at hocc0
      have := hocc0 _ hmem
      simp only [decide_eq_true_eq] at this
      exact this hc1'
    · rw [hdef] at hc1'
      exact absurd hc1' default_bucket_not_occupied
  · rw [findIdx_eq_outcome hf m k hsz, hspec]

theorem c6_find_follows_spec_witness :
    sizeOk mapW ∧ findIdx idHash mapW 1 = findSpecModel idHash mapW 1 :=
  ⟨by decide, c6_find_follows_spec idHash mapW 1 (by decide)⟩

/-- C8: on a well-formed table containing key `k`, the first `remove`
reports a removal, marks the slot Tombstone (not Empty), and decrements
`size` by one; a second `remove` of the same key reports not-found and
leaves `size` unchanged, so `size` decreases exactly once. -/
theorem c8_remove_idempotent (hf : K → Nat) (m : Hashmap K V) (k : K)
    (hwf : wf hf m) (hc : containsB hf m k = true) :
    (removeSt hf m k).2.isSome = true ∧
    (∀ i, (removeSt hf m k).2 = some i →
      ((removeSt hf m k).1.data.getD i default).state = .tombstone) ∧
    m.size = (removeSt hf m k).1.size + 1 ∧
    (removeSt hf (removeSt hf m k).1 k).2 = none ∧
    (removeSt hf (removeSt hf m k).1 k).1.size = (removeSt hf m k).1.size := by
  obtain ⟨i, hfind⟩ := Option.isSome_iff_exists.mp hc
  obtain ⟨hsz, hilt, hocc, hhash, hkey⟩ := findIdx_some_elim hfind
  have hlen : i < m.data.length := hilt
  have hre : removeSt hf m k =
      ({ data := m.data.set i { m.data.getD i default with state := .tombstone },
         size := m.size - 1 }, some i) := by
    simp only [removeSt, hfind]
  have hone : 1 ≤ m.size := by
    have h1 := occCount_pos_of_occupied m.data i hlen hocc
    have h2 : m.size = occCount m.data := hwf.1
    omega
  have htomb : ((m.data.set i
      { m.data.getD i default with state := .tombstone }).getD i
        default).state = .tombstone := by
    rw [getD_set_same _ _ _ _ hlen]
  have hpw := hwf.2.2
  rw [List.pairwise_iff_getElem] at hpw
  have hall : ∀ j, matchB k (hf k)
      ((m.data.set i { m.data.getD i default with state := .tombstone }).getD
        j default) = false := by
    intro j
    rw [matchB_false_iff]
    rintro ⟨hj1, hj2, hj3⟩
    by_cases hji : i = j
    · subst hji
      rw [getD_set_same _ _ _ _ hlen] at hj1
      simp at hj1
    · by_cases hjlen : j < m.data.length
      · rw [getD_set_other _ _ _ _ _ hji] at hj1 hj3
        have hgi : m.data.getD i default = m.data[i] :=
          getD_eq_getElem m.data i default hlen
        have hgj : m.data.getD j default = m.data[j] :=
          getD_eq_getElem m.data j default hjlen
        rcases Nat.lt_trichotomy i j with hij | hij | hij
        · have hR := hpw i j hlen hjlen hij
          rw [hgi] at hocc hkey
          rw [hgj] at hj1 hj3
          exact hR hocc hj1 (by rw [hkey, hj3])
        · exact hji hij
        · have hR := hpw j i hjlen hlen hij
          rw [hgi] at hocc hkey
          rw [hgj] at hj1 hj3
          exact hR hj1 hocc (by rw [hkey, hj3])
      · have hdef : m.data.getD j default = default := by
          rw [List.getD_eq_getElem?_getD, List.getElem?_eq_none (by omega)]
          rfl
        rw [getD_set_other _ _ _ _ _ hji, hdef] at hj1
        exact absurd hj1 default_bucket_not_occupied
  have hnone : findIdx hf
      (Hashmap.mk (m.data.set i
        { m.data.getD i default with state := .tombstone }) (m.size - 1))
      k = none := by
    by_cases hsz1 : m.size - 1 = 0
    · simp only [findIdx]
      rw [if_pos hsz1]
    · rw [findIdx_mk hf _ _ _ hsz1]
      apply findOutcome_none_of_nomatch
      intro t ht
      exact hall _
  have hre2 : removeSt hf (removeSt hf m k).1 k = ((removeSt hf m k).1, none) := by
    rw [hre]
    simp only [removeSt, hnone]
  refine ⟨?_, ?_, ?_, ?_, ?_⟩
  · rw [hre]
    rfl
  · intro j hj
    rw [hre] at hj ⊢
    have hj2 : some i = some j := hj
    injection hj2 with hij
    subst hij
    exact htomb
  · rw [hre]
    show m.size = m.size - 1 + 1
    omega
  · rw [hre2]
  · rw [hre2]

theorem c8_remove_idempotent_witness :
    wf idHash mapW ∧ containsB idHash mapW 1 = true ∧
    ((removeSt idHash mapW 1).2.isSome = true ∧
      (∀ i, (removeSt idHash mapW 1).2 = some i →
        ((removeSt idHash mapW 1).1.data.getD i default).state = .tombstone) ∧
      mapW.size = (removeSt idHash mapW 1).1.size + 1 ∧
      (removeSt idHash (removeSt idHash mapW 1).1 1).2 = none ∧
      (removeSt idHash (removeSt idHash mapW 1).1 1).1.size =
        (removeSt idHash mapW 1).1.size) :=
  ⟨by decide, by decide,
    c8_remove_idempotent idHash mapW 1 (by decide) (by decide)⟩

/-- C7 counterexample: a capacity-7 table holding keys 0..4 (hashes 0, 50,
51, 45, 32) loses key 4 under `reserve(8)`: in the new capacity-8 array the
four already re-inserted keys occupy slots 0, 2, 3, 5, which are exactly
the stops of key 4's probe walk (hash 32: stops 0, 5, 3, 2, 2, 3, 5, 0), so
the re-inserting `add_with_hash` exhausts its probe budget, returns null,
and the key is silently dropped: `size` falls from 5 to 4. -/
theorem c7_counterexample :
    mapC7.size = 5 ∧ mapC7.capacity = 7 ∧
    containsB hashC7 mapC7 4 = true ∧
    (reserveF hashC7 1 mapC7 8).capacity = 8 ∧
    (reserveF hashC7 1 mapC7 8).size = 4 ∧
    containsB hashC7 (reserveF hashC7 1 mapC7 8) 4 = false := by
  decide

/-- C7 amended: when every re-insertion of the `reserve` loop finds a slot
(`reinsertOKB`; the spec itself flags probe-sequence coverage as an open
question, and `c7_counterexample` shows the loop can in fact miss), a
capacity-increasing `reserve` on a well-formed table under the load bound
`4*(size+1) <= 3*r` keeps `size` unchanged, sets the capacity to `r`, and
leaves every previously Occupied key findable with its stored value. -/
theorem c7_reserve_preserves (hf : K → Nat) (f : Nat) (m : Hashmap K V)
    (r : Nat) (hwf : wf hf m) (hr : m.capacity < r)
    (hload : 4 * (m.size + 1) ≤ 3 * r)
    (hok : reinsertOKB hf f (mkReserved K V r) m.data = true) :
    (reserveF hf f m r).size = m.size ∧
    (reserveF hf f m r).capacity = r ∧
    ∀ b ∈ m.data, b.state = .occupied →
      ∃ j, findIdx hf (reserveF hf f m r) b.key = some j ∧
        ((reserveF hf f m r).data.getD j default).value = b.value := by
  have hdata : (mkReserved K V r).data = List.replicate r (zeroBucket K V) := rfl
  have hsfe : selfFind hf (mkReserved K V r) := by
    intro i hi hocci
    exfalso
    have hir : i < r := by simpa [mkReserved] using hi
    rw [hdata, getD_replicate_self r i _ _ hir] at hocci
    exact nomatch hocci
  have hdisj : ∀ b ∈ m.data, b.state = .occupied →
      ∀ j, j < (mkReserved K V r).data.length →
      ((mkReserved K V r).data.getD j default).state = .occupied →
      ((mkReserved K V r).data.getD j default).key ≠ b.key := by
    intro b _ _ j hj hoccj
    exfalso
    have hjr : j < r := by simpa [mkReserved] using hj
    rw [hdata, getD_replicate_self r j _ _ hjr] at hoccj
    exact nomatch hoccj
  obtain ⟨c1, c2, c3, c4, c5, c6⟩ := reinsert_master hf f r m.data
    (mkReserved K V r) (mkReserved_capacity r) (mkReserved_sizeOk r) hsfe
    hdisj hwf.2.2 hwf.2.1
    (by
      have h0 : (mkReserved K V r).size = 0 := rfl
      have h1 : m.size = occCount m.data := hwf.1
      omega) hok
  have hres : reserveF hf f m r = reinsertAll hf f (mkReserved K V r) m.data := by
    rw [reserveF_eq, if_pos hr]
  rw [hres]
  refine ⟨?_, c1, ?_⟩
  · have h0 : (mkReserved K V r).size = 0 := rfl
    have h1 : m.size = occCount m.data := hwf.1
    omega
  · intro b hb hbocc
    obtain ⟨j, hjr, hjeq⟩ := c6 b hb hbocc
    have hjlen : j < (reinsertAll hf f (mkReserved K V r) m.data).data.length := by
      have hcl : (reinsertAll hf f (mkReserved K V r) m.data).capacity =
          (reinsertAll hf f (mkReserved K V r) m.data).data.length := rfl
      omega
    have hocc2 : ((reinsertAll hf f (mkReserved K V r) m.data).data.getD j
        default).state = .occupied := by
      rw [hjeq]
    have hself := c4 j hjlen hocc2
    rw [hjeq] at hself
    exact ⟨j, hself, by rw [hjeq]⟩

theorem c7_reserve_preserves_witness :
    wf idHash mapW ∧ mapW.capacity < 8 ∧ 4 * (mapW.size + 1) ≤ 3 * 8 ∧
    reinsertOKB idHash 1 (mkReserved Nat Nat 8) mapW.data = true ∧
    ((reserveF idHash 1 mapW 8).size = mapW.size ∧
      (reserveF idHash 1 mapW 8).capacity = 8 ∧
      ∀ b ∈ mapW.data, b.state = .occupied →
        ∃ j, findIdx idHash (reserveF idHash 1 mapW 8) b.key = some j ∧
          ((reserveF idHash 1 mapW 8).data.getD j default).value = b.value) :=
  ⟨by decide, by decide, by decide, by decide,
    c7_reserve_preserves idHash 1 mapW 8 (by decide) (by decide) (by decide)
      (by decide)⟩

/-- C1 amended: the insert-then-find round trip of `add_with_hash` and
`find` holds whenever the insertion completes.  Stated relative to the grow
step that `add` may run first (the grow step's own correctness is the
subject of the reserve/grow claim): whenever the grow-or-identity prefix
preserves `size` and membership of `k` and keeps `size` consistent, and the
insertion itself completes (`add` does not hit the defensive table-full
null return of `get_bucket`), then `find(k)` on the result returns a bucket
holding value `v`; and if `k` was already present the operation is an
update: `size` is unchanged.  Unconditionally the round trip is false:
`c1_counterexample` exhibits a reachable table on which `add` inserts
nothing with no grow pending. -/
theorem c1_add_find_roundtrip (hf : K → Nat) (f : Nat) (m : Hashmap K V)
    (k : K) (v : V)
    (hs1 : sizeOk (addStep hf f m))
    (hszpres : (addStep hf f m).size = m.size)
    (hpres : containsB hf m k = true → containsB hf (addStep hf f m) k = true)
    (hcomp : (add hf (f + 1) m k v).2 ≠ none) :
    (∃ i, findIdx hf (add hf (f + 1) m k v).1 k = some i ∧
      ((add hf (f + 1) m k v).1.data.getD i default).value = v) ∧
    (containsB hf m k = true →
      (add hf (f + 1) m k v).1.size = m.size) := by
  have hadd : add hf (f + 1) m k v = addWH hf (f + 1) m k v sentinel := rfl
  have hkh : resolveHash hf k sentinel = hf k := by simp [resolveHash]
  cases hgb : (gbOutcome (addStep hf f m).data (addStep hf f m).capacity k
      (resolveHash hf k sentinel)).1 with
  | none => exact absurd (by rw [hadd, addWH_none_eq hgb]) hcomp
  | some i =>
    have hgb2 := hgb
    rw [hkh] at hgb2
    have hilt : i < (addStep hf f m).capacity := gbOutcome_fst_lt hgb
    by_cases hocc : ((addStep hf f m).data.getD i default).state = .occupied
    · -- the key was present: update in place
      have hadd1 : (add hf (f + 1) m k v).1 =
          { addStep hf f m with
            data := (addStep hf f m).data.set i
              { (addStep hf f m).data.getD i default with value := v } } := by
        rw [hadd, addWH_found_eq hgb hocc]
      obtain ⟨hsnd, hmB, hfo⟩ := gbOutcome_found hgb2 hocc
      have hszpos : (addStep hf f m).size ≠ 0 := by
        have hp1 := occCount_pos_of_occupied (addStep hf f m).data i hilt hocc
        have hs1' : (addStep hf f m).size = occCount (addStep hf f m).data := hs1
        omega
      have hfo2 := findOutcome_set_value v rfl hfo
      refine ⟨⟨i, ?_, ?_⟩, ?_⟩
      · rw [hadd1, findIdx_mk hf _ _ _ hszpos, List.length_set]
        exact hfo2
      · rw [hadd1]
        show (((addStep hf f m).data.set i
          { (addStep hf f m).data.getD i default with value := v }).getD i
            default).value = v
        rw [getD_set_same _ _ _ _ hilt]
      · intro _
        rw [hadd1]
        exact hszpres
    · -- the key was absent: fresh slot
      have hadd1 : (add hf (f + 1) m k v).1 =
          ({ data := (addStep hf f m).data.set i ⟨.occupied, hf k, k, v⟩,
             size := (addStep hf f m).size + 1 } : Hashmap K V) := by
        rw [hadd, addWH_fresh_eq hgb hocc, hkh]
      obtain ⟨hshape, τ, hτ, hw, hbef⟩ := gbOutcome_fresh hgb2 hocc
      have hfo2 := findOutcome_insert v rfl hτ hw hbef hocc
      refine ⟨⟨i, ?_, ?_⟩, ?_⟩
      · rw [hadd1, findIdx_mk hf _ _ _ (Nat.succ_ne_zero _), List.length_set]
        exact hfo2
      · rw [hadd1]
        show (((addStep hf f m).data.set i
          (⟨.occupied, hf k, k, v⟩ : Bucket K V)).getD i default).value = v
        rw [getD_set_same _ _ _ _ hilt]
      · intro hcont
        exfalso
        obtain ⟨i0, hfind0⟩ := Option.isSome_iff_exists.mp (hpres hcont)
        obtain ⟨hsz0, _, hocc0, _, _⟩ := findIdx_some_elim hfind0
        have hfo0 : findOutcome (addStep hf f m).data
            (addStep hf f m).capacity k (hf k) = some i0 := by
          rw [← findIdx_eq_outcome hf _ k hsz0]
          exact hfind0
        have hgbf := gbOutcome_of_findOutcome hfo0
        rw [hgbf] at hgb2
        have hii : some i0 = some i := hgb2
        injection hii with hii2
        subst hii2
        exact hocc hocc0

theorem c1_add_find_roundtrip_witness :
    sizeOk (addStep idHash 0 (mkReserved Nat Nat 4)) ∧
    (addStep idHash 0 (mkReserved Nat Nat 4)).size =
      (mkReserved Nat Nat 4).size ∧
    (containsB idHash (mkReserved Nat Nat 4) 2 = true →
      containsB idHash (addStep idHash 0 (mkReserved Nat Nat 4)) 2 = true) ∧
    (add idHash (0 + 1) (mkReserved Nat Nat 4) 2 7).2 ≠ none ∧
    ((∃ i, findIdx idHash (add idHash (0 + 1) (mkReserved Nat Nat 4) 2 7).1 2
        = some i ∧
      ((add idHash (0 + 1) (mkReserved Nat Nat 4) 2 7).1.data.getD i
        default).value = 7) ∧
      (containsB idHash (mkReserved Nat Nat 4) 2 = true →
        (add idHash (0 + 1) (mkReserved Nat Nat 4) 2 7).1.size =
          (mkReserved Nat Nat 4).size)) :=
  ⟨by decide, by decide, by decide, by decide,
    c1_add_find_roundtrip idHash 0 (mkReserved Nat Nat 4) 2 7 (by decide)
      (by decide) (by decide) (by decide)⟩

/-- C1 counterexample to the unconditional round trip: on the reachable,
size-consistent capacity-8 table left by `reserve(8)` on `mapC7` (keys 0..3
occupying slots 0, 2, 3, 5), `add(4, 999)` fires no grow (the load check is
`4*(4+1) >= 3*8`, false), yet every stop of key 4's probe walk (hash 32:
0, 5, 3, 2, 2, 3, 5, 0) is occupied and non-matching, so `get_bucket`
returns null, `add` returns the end iterator without inserting, and
`find(4)` then misses: `insert(k, v); find(k)` does not return `v`. -/
theorem c1_counterexample :
    sizeOk (reserveF hashC7 1 mapC7 8) ∧
    (reserveF hashC7 1 mapC7 8).capacity = 8 ∧
    growCheckB (reserveF hashC7 1 mapC7 8) = false ∧
    (add hashC7 1 (reserveF hashC7 1 mapC7 8) 4 999).2 = none ∧
    (add hashC7 1 (reserveF hashC7 1 mapC7 8) 4 999).1.size =
      (reserveF hashC7 1 mapC7 8).size ∧
    containsB hashC7 (add hashC7 1 (reserveF hashC7 1 mapC7 8) 4 999).1 4
      = false := by
  decide

end HashVerify
